import Mathlib

/-!
# k8test: sharded fragment store

A shallow embedding of the orchestration layer of `aburluka/k8test`:

* `internal/registry/registry.go`  : the node registry and hash-based selection,
* `internal/fragment/fragment.go`  : the fragment metadata registry,
* `internal/fragment/storage.go`   : the node-local blob store,
* `cmd/bucketserver/main.go`       : the storage node RPC handlers,
* `cmd/apiserver/main.go`          : upload, download and the cleanup sweeper.

Conventions of the embedding.

* Shared mutable state (the metadata registry, the blob store of every node) is passed
  explicitly; a handler returns the new state together with the trace of the calls it
  made on its environment.
* Every call that can fail in Go for reasons outside the program (transport, disk,
  websocket) asks the environment `Env` whether it fails; failures that the program
  decides itself (a blob that already exists, a missing record) are computed from the
  state.
* A nil pointer dereference ends a Go function by a panic; deferred functions still run.
  Handlers therefore report an `Outcome`, one of which is `panicked`.
* `int64` and `int` values are integers (`Int`); conversions to `uint32` and `uint64`
  are written out as remainders.
* The router dispatches `/upload/{filename}` and `/download/{filename}`, so a handler gets
  a non-empty filename; the handlers still check for the empty one, and so does the
  embedding.
* A session works on the node registry as it is when the session starts.
-/

namespace K8test

/-- A byte slice, Go `[]byte`. -/
abbrev Bytes := List UInt8

/-- Go conversion `uint32(x)` of an `int`. -/
def uint32 (x : Int) : Nat := (x % 2 ^ 32).toNat

/-- Go conversion `uint64(x)` of an `int64`. -/
def uint64 (x : Int) : Nat := (x % 2 ^ 64).toNat

/-- Go conversion `[]byte(s)` of a string: its UTF-8 bytes. -/
def stringBytes (s : String) : Bytes := s.data.flatMap String.utf8EncodeChar

/-! ## `hash/fnv` and `encoding/binary` (Go standard library) -/

/-- The 64-bit FNV offset basis, `offset64` of `hash/fnv`. -/
def fnvOffset64 : Nat := 14695981039346656037

/-- The 64-bit FNV prime, `prime64` of `hash/fnv`. -/
def fnvPrime64 : Nat := 1099511628211

/-- One `Write` on the hash state of `fnv.New64()` (FNV-1: multiply, then xor). -/
def fnvWrite (h : Nat) (data : Bytes) : Nat :=
  data.foldl (fun hash c => ((hash * fnvPrime64) % 2 ^ 64) ^^^ c.toNat) h

/-- Encoding of `binary.LittleEndian.PutUint64` into an 8-byte buffer. -/
def putUint64LE (v : Nat) : Bytes :=
  (List.range 8).map (fun i => UInt8.ofNat ((v / 256 ^ i) % 256))

/-! ## `internal/registry/registry.go` -/

namespace registry

/-- A storage node, identified by its address. -/
structure Server where
  Address : String
  deriving DecidableEq, Repr

/-- The node registry: the registered servers in registration order. -/
structure Registry where
  servers : List Server
  deriving DecidableEq, Repr

/-- An empty node registry, `NewRegistry`. -/
def NewRegistry : Registry := { servers := [] }

/-- Outcome of `Register`: the error of the Go function, if any. -/
inductive RegisterError where
  | noAddress
  | alreadyRegistered
  deriving DecidableEq, Repr

/-- Registration of a server, `Registry.Register`; `len(s.Address) == 0` holds exactly
for the empty string. -/
def Registry.Register (r : Registry) (s : Server) : Except RegisterError Registry :=
  if s.Address = "" then
    .error .noAddress
  else if r.servers.any (fun server => decide (server.Address = s.Address)) then
    .error .alreadyRegistered
  else
    .ok { servers := r.servers ++ [s] }

/-- Selection of a server, `Registry.GetServer`, from the value `chunkHash.Sum64()`;
`none` is the nil pointer returned when no server is registered. -/
def Registry.GetServer (r : Registry) (sum64 : Nat) : Option Server :=
  if r.servers.length = 0 then none
  else r.servers[sum64 % r.servers.length]?

end registry

/-! ## `internal/fragment/fragment.go` -/

namespace fragment

/-- Upload status, `UploadStatus = int`. -/
abbrev UploadStatus := Int

/-!
The constants are declared in one `const (...)` block after `fragmentsFile`:

    const (
        fragmentsFile = "fragments.json"
        UploadStatusIncomplete UploadStatus = iota
        UploadStatusComplete
        UploadStatusFailed
    )

`iota` is the index of the constant specification inside the block, and `fragmentsFile`
has index 0, so the three statuses are 1, 2 and 3.
-/

/-- Value of `UploadStatusIncomplete`. -/
def UploadStatusIncomplete : UploadStatus := 1

/-- Value of `UploadStatusComplete`. -/
def UploadStatusComplete : UploadStatus := 2

/-- Value of `UploadStatusFailed`. -/
def UploadStatusFailed : UploadStatus := 3

/-- Metadata of one file, `FileMeta`; the index in `Addresses` is the fragment number. -/
structure FileMeta where
  Status : UploadStatus
  Name : String
  Addresses : List String
  deriving DecidableEq, Repr

/-- Value of a key in the entries of a Go map. -/
def lookup (filename : String) : List (String × FileMeta) → Option FileMeta
  | [] => none
  | (k, v) :: rest => if k = filename then some v else lookup filename rest

/-- Update through the pointer stored under a key; no effect when the key is absent. -/
def modify (filename : String) (f : FileMeta → FileMeta) :
    List (String × FileMeta) → List (String × FileMeta)
  | [] => []
  | (k, v) :: rest =>
    if k = filename then (k, f v) :: rest else (k, v) :: modify filename f rest

/-- Entries left by the Go builtin `delete(m, filename)`. -/
def erase (filename : String) (l : List (String × FileMeta)) : List (String × FileMeta) :=
  l.filter (fun e => decide (e.1 ≠ filename))

/-- Entries after the map update of `AddFragment`. -/
def addEntry (filename address : String) (l : List (String × FileMeta)) :
    List (String × FileMeta) :=
  match lookup filename l with
  | none => l ++ [(filename, { Status := 0, Name := filename, Addresses := [address] })]
  | some _ => modify filename (fun fm => { fm with Addresses := fm.Addresses ++ [address] }) l

/-- The metadata registry, `Registry`: the Go map `Files`, as its list of entries in
some iteration order, with one entry per key. -/
structure Registry where
  Files : List (String × FileMeta)
  nodup : (Files.map Prod.fst).Nodup

/-- The empty registry built by `NewRegistry` when there is no snapshot. -/
def NewRegistry : Registry := { Files := [], nodup := List.nodup_nil }

/-- Map access `r.Files[filename]`. -/
def Registry.get (r : Registry) (filename : String) : Option FileMeta :=
  lookup filename r.Files

end fragment

/-! ## The environment -/

/-- A message sent on an `UploadChunks` stream (`bucket.UploadChunk`). -/
structure UploadChunk where
  Filename : String
  Fragment : Nat
  Data : Bytes
  deriving DecidableEq, Repr

/-- What `conn.ReadMessage` returns when there is a next frame: a message, or an error
other than `io.EOF`. The end of the inbound list is `io.EOF`. -/
inductive ReadResult where
  | message (b : Bytes)
  | failure
  deriving DecidableEq, Repr

/-- Failures decided outside the program. Each field says whether the named call
returns an error for the given arguments. -/
structure Env where
  /-- Failure of `upgrader.Upgrade` -/
  upgradeFails : Bool
  /-- Failure of `Registry.store` of the metadata registry, given the entries to write -/
  storeFails : List (String × fragment.FileMeta) → Bool
  /-- Failure of `grpc.NewClient(address)` -/
  newClientFails : String → Bool
  /-- Failure of `grpcClient.UploadChunks` on a connection to the address -/
  uploadChunksFails : String → Bool
  /-- Failure of `grpcStream.Send(chunk)` on a stream to the address -/
  sendFails : String → UploadChunk → Bool
  /-- Failure of `grpcClient.DownloadChunks` for address, filename and fragment -/
  downloadChunksFails : String → String → Nat → Bool
  /-- Failure of `grpcStream.Recv` for address, filename, fragment and index of the chunk -/
  recvFails : String → String → Nat → Nat → Bool
  /-- Failure of `conn.WriteMessage` of a frame to the client -/
  writeMessageFails : Bytes → Bool
  /-- Failure of the transport of `DeleteFragment` to address for filename and fragment -/
  deleteFragmentFails : String → String → Nat → Bool

/-- The environment in which no call fails. -/
def Env.reliable : Env where
  upgradeFails := false
  storeFails := fun _ => false
  newClientFails := fun _ => false
  uploadChunksFails := fun _ => false
  sendFails := fun _ _ => false
  downloadChunksFails := fun _ _ _ => false
  recvFails := fun _ _ _ _ => false
  writeMessageFails := fun _ => false
  deleteFragmentFails := fun _ _ _ => false

namespace fragment

/-- In-memory update and snapshot write of `Registry.AddFragment`; the Boolean is
`err == nil`. The map is updated also when the write fails. -/
def Registry.AddFragment (env : Env) (r : Registry) (filename address : String) :
    Registry × Bool :=
  let files := addEntry filename address r.Files
  ({ Files := files
     nodup := by
       have hmod : ∀ (f : FileMeta → FileMeta) (l : List (String × FileMeta)),
           (modify filename f l).map Prod.fst = l.map Prod.fst := by
         intro f l
         induction l with
         | nil => rfl
         | cons e rest ih =>
           obtain ⟨k, v⟩ := e
           by_cases h : k = filename <;> simp [modify, h, ih]
       have hnone : ∀ l : List (String × FileMeta),
           lookup filename l = none → filename ∉ l.map Prod.fst := by
         intro l
         induction l with
         | nil => simp
         | cons e rest ih =>
           obtain ⟨k, v⟩ := e
           intro h
           by_cases hk : k = filename
           · simp [lookup, hk] at h
           · simp only [lookup, hk, if_false] at h
             simp only [List.map_cons, List.mem_cons, not_or]
             exact ⟨fun e => hk e.symm, ih h⟩
       show ((addEntry filename address r.Files).map Prod.fst).Nodup
       unfold addEntry
       cases hl : lookup filename r.Files with
       | none =>
         simp only [List.map_append, List.map_cons, List.map_nil]
         refine List.Nodup.append r.nodup (by simp) ?_
         simpa using hnone r.Files hl
       | some v => simpa [hmod] using r.nodup },
    !env.storeFails files)

/-- Status update of `Registry.SetStatus`; fails without effect when there is no record. -/
def Registry.SetStatus (env : Env) (r : Registry) (filename : String)
    (status : UploadStatus) : Registry × Bool :=
  match lookup filename r.Files with
  | none => (r, false)
  | some _ =>
    let files := modify filename (fun fm => { fm with Status := status }) r.Files
    ({ Files := files
       nodup := by
         have hmod : ∀ l : List (String × FileMeta),
             (modify filename (fun fm => { fm with Status := status }) l).map Prod.fst
               = l.map Prod.fst := by
           intro l
           induction l with
           | nil => rfl
           | cons e rest ih =>
             obtain ⟨k, v⟩ := e
             by_cases h : k = filename <;> simp [modify, h, ih]
         show ((modify filename (fun fm => { fm with Status := status }) r.Files).map
           Prod.fst).Nodup
         rw [hmod]
         exact r.nodup },
      !env.storeFails files)

/-- Removal of a record, `Registry.Delete`. -/
def Registry.Delete (env : Env) (r : Registry) (filename : String) : Registry × Bool :=
  let files := erase filename r.Files
  ({ Files := files, nodup := r.nodup.sublist ((List.filter_sublist r.Files).map Prod.fst) },
    !env.storeFails files)

end fragment

/-! ## `internal/fragment/storage.go` -/

namespace fragment

/-- The blob store of one node, `Storage`. A blob is the file
`<directory>/<filename>_<fragment>.bin`; that path determines the pair of filename and
fragment number, so blobs are keyed by the pair. -/
structure Storage where
  blobs : String → Nat → Option Bytes

/-- A store without blobs. -/
def Storage.empty : Storage := { blobs := fun _ _ => none }

/-- Write-once `Storage.Put`; the Boolean is `err == nil`. -/
def Storage.Put (fs : Storage) (filename : String) (fragment : Nat) (data : Bytes) :
    Storage × Bool :=
  match fs.blobs filename fragment with
  | some _ => (fs, false)
  | none =>
    ({ blobs := fun f k => if f = filename ∧ k = fragment then some data else fs.blobs f k },
      true)

/-- Content read through `Storage.Get`; `none` is the error of `os.Open`. -/
def Storage.Get (fs : Storage) (filename : String) (fragment : Nat) : Option Bytes :=
  fs.blobs filename fragment

/-- Removal `Storage.Delete`; fails when there is no such blob. -/
def Storage.Delete (fs : Storage) (filename : String) (fragment : Nat) : Storage × Bool :=
  match fs.blobs filename fragment with
  | none => (fs, false)
  | some _ =>
    ({ blobs := fun f k => if f = filename ∧ k = fragment then none else fs.blobs f k }, true)

end fragment

/-- The blob stores of all nodes, by node address. -/
abbrev Stores := String → fragment.Storage

/-- Replacement of the store of one node. -/
def Stores.set (stores : Stores) (address : String) (fs : fragment.Storage) : Stores :=
  fun a => if a = address then fs else stores a

/-! ## `cmd/bucketserver/main.go` -/

namespace BucketServer

/-- Window of `DownloadChunks`, `readChunkSize = 2 << 16`. -/
def readChunkSize : Nat := 131072

/-- The arguments of the `Put` made by `UploadChunks` after the requests of a stream:
the concatenated data, with filename and fragment of the last request. -/
def received (requests : List UploadChunk) : UploadChunk :=
  requests.foldl
    (fun acc request =>
      { Filename := request.Filename, Fragment := request.Fragment,
        Data := acc.Data ++ request.Data })
    { Filename := "", Fragment := 0, Data := [] }

/-- Handler `UploadChunks` on a stream that ends by `io.EOF`. -/
def UploadChunks (fs : fragment.Storage) (requests : List UploadChunk) :
    fragment.Storage × Bool :=
  fs.Put (received requests).Filename (received requests).Fragment (received requests).Data

/-- Successive windows of at most `n` bytes read by `io.ReadFull`; the fuel bounds the
number of windows. -/
def readWindows (n : Nat) : Nat → Bytes → List Bytes
  | 0, _ => []
  | fuel + 1, data =>
    if data.length = 0 then [] else data.take n :: readWindows n fuel (data.drop n)

/-- Chunks sent by the handler `DownloadChunks`; `none` is the not-found error. -/
def DownloadChunks (fs : fragment.Storage) (filename : String) (fragment : Nat) :
    Option (List Bytes) :=
  (fs.Get filename fragment).map (fun data => readWindows readChunkSize data.length data)

/-- Handler `DeleteFragment`. -/
def DeleteFragment (fs : fragment.Storage) (filename : String) (fragment : Nat) :
    K8test.fragment.Storage × Bool :=
  fs.Delete filename fragment

end BucketServer

/-! ## `cmd/apiserver/main.go` -/

/-- A call made by a handler, with its result (`ok` is `err == nil`). -/
inductive Event where
  /-- Call of `conn.ReadMessage`; `none` is `io.EOF` -/
  | readMessage (r : Option ReadResult)
  /-- Call of `bucketRegistry.GetServer`; `none` is the nil result -/
  | getServer (s : Option registry.Server)
  | addFragment (filename address : String) (ok : Bool)
  | setStatus (filename : String) (status : fragment.UploadStatus) (ok : Bool)
  | delete (filename : String) (ok : Bool)
  | newClient (address : String) (ok : Bool)
  | uploadChunks (address : String) (ok : Bool)
  | send (address : String) (chunk : UploadChunk) (ok : Bool)
  /-- Call of `grpcStream.CloseAndRecv`; `put` is the `Put` made by the node, if any -/
  | closeAndRecv (address : String) (put : Option UploadChunk) (ok : Bool)
  | downloadChunks (address filename : String) (fragment : Nat) (ok : Bool)
  /-- Call of `grpcStream.Recv` on a download stream that returned an error -/
  | recvFailed (address filename : String) (fragment : Nat)
  | writeMessage (data : Bytes) (ok : Bool)
  /-- Call of the helper `deleteFragment`: the delete request for a fragment to a node -/
  | deleteFragment (address filename : String) (fragment : Nat) (ok : Bool)
  deriving DecidableEq, Repr

/-- Whether the call returned without error. -/
def Event.ok : Event → Bool
  | .readMessage (some .failure) => false
  | .readMessage _ => true
  | .getServer _ => true
  | .addFragment _ _ ok => ok
  | .setStatus _ _ ok => ok
  | .delete _ ok => ok
  | .newClient _ ok => ok
  | .uploadChunks _ ok => ok
  | .send _ _ ok => ok
  | .closeAndRecv _ _ ok => ok
  | .downloadChunks _ _ _ ok => ok
  | .recvFailed _ _ _ => false
  | .writeMessage _ ok => ok
  | .deleteFragment _ _ _ ok => ok

/-- How a handler ended. -/
inductive Outcome where
  /-- Response `http.StatusBadRequest` -/
  | badRequest
  /-- Response `http.StatusNotFound` -/
  | notFound
  /-- Response `http.StatusInternalServerError` -/
  | internalServerError
  /-- The size announcement was refused -/
  | rejected
  /-- The handler returned after a session on the upgraded connection -/
  | returned
  /-- The handler ended by a nil pointer dereference -/
  | panicked
  deriving DecidableEq, Repr

namespace ApiServer

/-- Fanout, `serverNumber`. -/
def serverNumber : Int := 6

/-- Handler of the gRPC call `RegisterBucket`, lines 100-112: the node registry after the
call and the error of `Register` that the response carries under `codes.Internal`, if
any. `Register` assigns `r.servers` on the path that returns nil only, so a call that
fails leaves the registry as it was. -/
def RegisterBucket (reg : registry.Registry) (address : String) :
    registry.Registry × Option registry.RegisterError :=
  match reg.Register { Address := address } with
  | .error err => (reg, some err)
  | .ok registered => (registered, none)

/-- Node for a frame, `chooseServer`. -/
def chooseServer (reg : registry.Registry) (filename : String) (totalBytes : Int)
    (payload : Bytes) : Option registry.Server :=
  reg.GetServer
    (fnvWrite
      (fnvWrite (fnvWrite fnvOffset64 (stringBytes filename)) (putUint64LE (uint64 totalBytes)))
      payload)

/-- Size check of `readUploadFileSize`; the argument is the announced size, `none` when
`conn.ReadJSON` fails. -/
def readUploadFileSize (announcement : Option Int) : Option Int :=
  match announcement with
  | none => none
  | some size => if size = 0 then none else some size

/-- The client side of an `UploadChunks` stream: the node it goes to, the requests
delivered so far, and whether the call has ended (closed, or broken by a failed send). -/
structure Stream where
  address : String
  sent : List UploadChunk
  finished : Bool

/-- The local variables of `upload`, with the shared state the session acts on.
`grpcConn` holds the address the connection was made to; `none` is nil for the three
pointers. -/
structure Session where
  totalBytes : Int
  currentChunkSize : Int
  grpcConn : Option String
  bucketServer : Option registry.Server
  grpcStream : Option Stream
  fragmentNumber : Int
  files : fragment.Registry
  stores : Stores

/-- How the read loop of `upload` was left: by `break` (the statement after the loop is
reached), by `return`, or by a panic. -/
inductive Exit where
  | completed
  | returned
  | panicked
  deriving DecidableEq, Repr

/-- The statements `grpcStream.CloseAndRecv(); grpcConn.Close()` guarded by
`grpcConn != nil` (lines 298-301 and the second deferred function). On the node the
handler `UploadChunks` sees the end of the stream and stores the fragment. `none` is the
panic of a method call on a nil stream. -/
def closeStream (s : Session) : Option (Session × List Event) :=
  match s.grpcConn with
  | none => some (s, [])
  | some _ =>
    match s.grpcStream with
    | none => none
    | some st =>
      if st.finished then
        some (s, [.closeAndRecv st.address none false])
      else
        let r := BucketServer.UploadChunks (s.stores st.address) st.sent
        some ({ s with stores := s.stores.set st.address r.1,
                       grpcStream := some { st with finished := true } },
          [.closeAndRecv st.address (some (BucketServer.received st.sent)) r.2])

/-- The fragment boundary, lines 285-313: record the previous fragment, choose the next
node, close the previous stream and open a stream to the chosen node. -/
def openFragment (env : Env) (reg : registry.Registry) (filename : String) (b : Bytes)
    (s : Session) : Session × Option Exit × List Event :=
  let recorded : fragment.Registry × Bool × List Event :=
    match s.bucketServer with
    | none => (s.files, true, [])
    | some srv =>
      let r := s.files.AddFragment env filename srv.Address
      (r.1, r.2, [.addFragment filename srv.Address r.2])
  if recorded.2.1 = false then
    ({ s with files := recorded.1 }, some .returned, recorded.2.2)
  else
    let chosen := chooseServer reg filename s.totalBytes b
    let s1 : Session :=
      { s with files := recorded.1, fragmentNumber := s.fragmentNumber + 1,
               currentChunkSize := 0, bucketServer := chosen }
    match closeStream s1 with
    | none => (s1, some .panicked, recorded.2.2 ++ [.getServer chosen])
    | some (s2, closed) =>
      match s2.bucketServer with
      | none => (s2, some .panicked, recorded.2.2 ++ [.getServer chosen] ++ closed)
      | some srv =>
        if env.newClientFails srv.Address then
          ({ s2 with grpcConn := none }, some .returned,
            recorded.2.2 ++ [.getServer chosen] ++ closed ++ [.newClient srv.Address false])
        else if env.uploadChunksFails srv.Address then
          ({ s2 with grpcConn := some srv.Address, grpcStream := none }, some .returned,
            recorded.2.2 ++ [.getServer chosen] ++ closed ++
              [.newClient srv.Address true, .uploadChunks srv.Address false])
        else
          ({ s2 with grpcConn := some srv.Address,
                     grpcStream := some { address := srv.Address, sent := [], finished := false } },
            none,
            recorded.2.2 ++ [.getServer chosen] ++ closed ++
              [.newClient srv.Address true, .uploadChunks srv.Address true])

/-- Forwarding of a frame, lines 316-328. -/
def sendChunk (env : Env) (filename : String) (b : Bytes) (s : Session) :
    Session × Option Exit × List Event :=
  match s.grpcStream with
  | none => (s, some .panicked, [])
  | some st =>
    let chunk : UploadChunk :=
      { Filename := filename, Fragment := uint32 s.fragmentNumber, Data := b }
    if st.finished = true ∨ env.sendFails st.address chunk = true then
      ({ s with grpcStream := some { st with finished := true } }, some .returned,
        [.send st.address chunk false])
    else
      ({ s with grpcStream := some { st with sent := st.sent ++ [chunk] } }, none,
        [.send st.address chunk true])

/-- The body of the read loop after a non-empty frame `b` was read, lines 281-328. -/
def uploadFrame (env : Env) (reg : registry.Registry) (filename : String)
    (chunkSize : Int) (b : Bytes) (s : Session) : Session × Option Exit × List Event :=
  let s1 : Session :=
    { s with totalBytes := s.totalBytes + b.length,
             currentChunkSize := s.currentChunkSize + b.length }
  if s1.bucketServer = none ∨ s1.currentChunkSize ≥ chunkSize then
    match openFragment env reg filename b s1 with
    | (s2, some exit, opened) => (s2, some exit, opened)
    | (s2, none, opened) =>
      match sendChunk env filename b s2 with
      | (s3, exit, sent) => (s3, exit, opened ++ sent)
  else
    sendChunk env filename b s1

/-- The read loop of `upload`, lines 262-329, over the frames the client sends. -/
def uploadLoop (env : Env) (reg : registry.Registry) (filename : String)
    (fileSize chunkSize : Int) : Session → List ReadResult → Session × Exit × List Event
  | s, [] =>
    if s.totalBytes ≥ fileSize then (s, .completed, [])
    else (s, .completed, [.readMessage none])
  | s, .failure :: _ =>
    if s.totalBytes ≥ fileSize then (s, .completed, [])
    else (s, .returned, [.readMessage (some .failure)])
  | s, .message b :: rest =>
    if s.totalBytes ≥ fileSize then (s, .completed, [])
    else if b.length = 0 then (s, .completed, [.readMessage (some (.message b))])
    else
      match uploadFrame env reg filename chunkSize b s with
      | (s1, some exit, evs) => (s1, exit, .readMessage (some (.message b)) :: evs)
      | (s1, none, evs) =>
        match uploadLoop env reg filename fileSize chunkSize s1 rest with
        | (s2, exit, evs2) => (s2, exit, .readMessage (some (.message b)) :: evs ++ evs2)

/-- The first deferred function of `upload`, lines 238-250, which runs last: record the
pending fragment and set the status. `none` is the panic of `bucketServer.Address` on a
nil `bucketServer`. -/
def finalize (env : Env) (filename : String) (uploadStatus : fragment.UploadStatus)
    (s : Session) : Option (Session × List Event) :=
  match s.bucketServer with
  | none => none
  | some srv =>
    let added := s.files.AddFragment env filename srv.Address
    if added.2 = false then
      some ({ s with files := added.1 }, [.addFragment filename srv.Address false])
    else
      let set := added.1.SetStatus env filename uploadStatus
      some ({ s with files := set.1 },
        [.addFragment filename srv.Address true, .setStatus filename uploadStatus set.2])

/-- What a handler leaves behind. -/
structure Result where
  outcome : Outcome
  files : fragment.Registry
  stores : Stores
  trace : List Event

/-- The session of `upload` after the size announcement was accepted, lines 225-332 with
the two deferred functions in the order Go runs them. -/
def uploadSession (env : Env) (reg : registry.Registry) (files : fragment.Registry)
    (stores : Stores) (filename : String) (fileSize : Int) (inbound : List ReadResult) :
    Result :=
  let chunkSize := fileSize.tdiv serverNumber
  let s0 : Session :=
    { totalBytes := 0, currentChunkSize := 0, grpcConn := none, bucketServer := none,
      grpcStream := none, fragmentNumber := -1, files := files, stores := stores }
  match uploadLoop env reg filename fileSize chunkSize s0 inbound with
  | (s1, exit, evs) =>
    let uploadStatus :=
      if exit = .completed then fragment.UploadStatusComplete else fragment.UploadStatusFailed
    match closeStream s1 with
    | none =>
      match finalize env filename uploadStatus s1 with
      | none => { outcome := .panicked, files := s1.files, stores := s1.stores, trace := evs }
      | some (s3, evs3) =>
        { outcome := .panicked, files := s3.files, stores := s3.stores, trace := evs ++ evs3 }
    | some (s2, evs2) =>
      match finalize env filename uploadStatus s2 with
      | none =>
        { outcome := .panicked, files := s2.files, stores := s2.stores, trace := evs ++ evs2 }
      | some (s3, evs3) =>
        { outcome := if exit = .panicked then .panicked else .returned,
          files := s3.files, stores := s3.stores, trace := evs ++ evs2 ++ evs3 }

/-- The handler `upload`. `announcement` is the size the client announces (`none` when
the announcement cannot be read) and `inbound` the frames it sends afterwards. -/
def upload (env : Env) (reg : registry.Registry) (files : fragment.Registry)
    (stores : Stores) (filename : String) (announcement : Option Int)
    (inbound : List ReadResult) : Result :=
  if filename = "" then
    { outcome := .badRequest, files := files, stores := stores, trace := [] }
  else if env.upgradeFails then
    { outcome := .internalServerError, files := files, stores := stores, trace := [] }
  else
    match readUploadFileSize announcement with
    | none => { outcome := .rejected, files := files, stores := stores, trace := [] }
    | some fileSize => uploadSession env reg files stores filename fileSize inbound

/-- The inner loop of `download`, lines 393-409: relay the chunks of one fragment to the
client. `i` is the number of chunks already received; the Boolean is false when the
handler returns from inside the loop. -/
def relayChunks (env : Env) (address filename : String) (fragment : Nat) :
    Nat → List Bytes → Bool × List Event
  | i, [] =>
    if env.recvFails address filename fragment i then
      (false, [.recvFailed address filename fragment])
    else (true, [])
  | i, chunk :: rest =>
    if env.recvFails address filename fragment i then
      (false, [.recvFailed address filename fragment])
    else if env.writeMessageFails chunk then
      (false, [.writeMessage chunk false])
    else
      match relayChunks env address filename fragment (i + 1) rest with
      | (ok, evs) => (ok, .writeMessage chunk true :: evs)

/-- The loop of `download` over `meta.Addresses`, lines 373-410; `i` is the index of the
first address of the list. The Boolean is false when the handler returns from the loop. -/
def downloadFragments (env : Env) (stores : Stores) (filename : String) :
    Nat → List String → Bool × List Event
  | _, [] => (true, [])
  | i, server :: rest =>
    if env.newClientFails server then
      (false, [.newClient server false])
    else if env.downloadChunksFails server filename (uint32 i) then
      (false, [.newClient server true, .downloadChunks server filename (uint32 i) false])
    else
      match BucketServer.DownloadChunks (stores server) filename (uint32 i) with
      | none =>
        (false, [.newClient server true, .downloadChunks server filename (uint32 i) true,
          .recvFailed server filename (uint32 i)])
      | some chunks =>
        match relayChunks env server filename (uint32 i) 0 chunks with
        | (false, evs) =>
          (false, [.newClient server true, .downloadChunks server filename (uint32 i) true]
            ++ evs)
        | (true, evs) =>
          match downloadFragments env stores filename (i + 1) rest with
          | (ok, evs2) =>
            (ok, [.newClient server true, .downloadChunks server filename (uint32 i) true]
              ++ evs ++ evs2)

/-- The handler `download`. It changes neither the registry nor the stores. -/
def download (env : Env) (files : fragment.Registry) (stores : Stores)
    (filename : String) : Result :=
  if filename = "" then
    { outcome := .badRequest, files := files, stores := stores, trace := [] }
  else
    match files.get filename with
    | none => { outcome := .notFound, files := files, stores := stores, trace := [] }
    | some fileMeta =>
      if fileMeta.Status ≠ fragment.UploadStatusComplete then
        { outcome := .notFound, files := files, stores := stores, trace := [] }
      else if env.upgradeFails then
        { outcome := .internalServerError, files := files, stores := stores, trace := [] }
      else
        match downloadFragments env stores filename 0 fileMeta.Addresses with
        | (false, evs) =>
          { outcome := .returned, files := files, stores := stores, trace := evs }
        | (true, evs) =>
          { outcome := .returned, files := files, stores := stores,
            trace := evs ++ [.writeMessage [] (!env.writeMessageFails [])] }

/-- The frames a handler wrote to the client, in order. -/
def relayed : List Event → List Bytes
  | [] => []
  | .writeMessage data true :: rest => data :: relayed rest
  | _ :: rest => relayed rest

/-- The helper `deleteFragment`, lines 114-127: one `DeleteFragment` call to the node at
`address`, whose handler removes the blob from the store of that node. The event is the
call of the helper with the fields of its request, the index being `uint32(fragment)`. -/
def deleteFragment (env : Env) (stores : Stores) (filename address : String)
    (fragment : Int) : Stores × Bool × List Event :=
  if env.newClientFails address then
    (stores, false, [.deleteFragment address filename (uint32 fragment) false])
  else if env.deleteFragmentFails address filename (uint32 fragment) then
    (stores, false, [.deleteFragment address filename (uint32 fragment) false])
  else
    let r := BucketServer.DeleteFragment (stores address) filename (uint32 fragment)
    (stores.set address r.1, r.2, [.deleteFragment address filename (uint32 fragment) r.2])

/-- The loop of `cleanup` over `fileInfo.Addresses`, lines 137-144, which stops at the
first failed delete; `i` is the index of the first address of the list. -/
def deleteFragments (env : Env) (filename : String) :
    Stores → Nat → List String → Stores × List Event
  | stores, _, [] => (stores, [])
  | stores, i, address :: rest =>
    match deleteFragment env stores filename address i with
    | (stores1, false, evs) => (stores1, evs)
    | (stores1, true, evs) =>
      match deleteFragments env filename stores1 (i + 1) rest with
      | (stores2, evs2) => (stores2, evs ++ evs2)

/-- The loop of `cleanup` over the entries of `Files`, lines 131-153. Only the entry
being visited is deleted, so every entry of the map is visited once, with the value it
had when the loop began. -/
def sweep (env : Env) :
    fragment.Registry → Stores → List (String × fragment.FileMeta) →
      fragment.Registry × Stores × List Event
  | files, stores, [] => (files, stores, [])
  | files, stores, (filename, fileInfo) :: rest =>
    if fileInfo.Status ≠ fragment.UploadStatusFailed then
      sweep env files stores rest
    else
      match deleteFragments env filename stores 0 fileInfo.Addresses with
      | (stores1, evs) =>
        match sweep env (files.Delete env filename).1 stores1 rest with
        | (files2, stores2, evs2) =>
          (files2, stores2, evs ++ [.delete filename (files.Delete env filename).2] ++ evs2)

/-- One tick of `cleanup`: the body of `for range s.cleanupTicker.C`. -/
def cleanup (env : Env) (files : fragment.Registry) (stores : Stores) : Result :=
  match sweep env files stores files.Files with
  | (files1, stores1, evs) =>
    { outcome := .returned, files := files1, stores := stores1, trace := evs }

end ApiServer

open ApiServer fragment

/-! ## Observations, the chunking rule and the invariants of a session -/

/-- No call of a trace returned an error. -/
def allOk (evs : List Event) : Prop := ∀ e ∈ evs, e.ok = true

/-- The delete requests made for the fragments of `filename`, in the order of a trace:
the node address, the fragment number and whether the request succeeded. -/
def deleteRequests (filename : String) : List Event → List (String × Nat × Bool)
  | [] => []
  | .deleteFragment address name fragment ok :: rest =>
    if name = filename then (address, fragment, ok) :: deleteRequests filename rest
    else deleteRequests filename rest
  | _ :: rest => deleteRequests filename rest

/-- The blobs a download of `filename` reads for the addresses of a record, in index
order, `i` being the index of the first address; `none` when one of them is missing. -/
def fragmentsOf (stores : Stores) (filename : String) : Nat → List String → Option (List Bytes)
  | _, [] => some []
  | i, address :: rest =>
    match (stores address).blobs filename (uint32 i) with
    | none => none
    | some data => (fragmentsOf stores filename (i + 1) rest).map (fun ds => data :: ds)

/-- The addresses recorded for a file, none when there is no record. -/
def addressesOf (files : fragment.Registry) (filename : String) : List String :=
  match files.get filename with
  | none => []
  | some fm => fm.Addresses

/-- Address of the node `chooseServer` returns, empty when it returns nil. -/
def selected (reg : registry.Registry) (filename : String) (totalBytes : Int)
    (payload : Bytes) : String :=
  match chooseServer reg filename totalBytes payload with
  | some srv => srv.Address
  | none => ""

/-- The chunking rule of section 4.4 of the specification, written on its own: the
fragments, as pairs of node address and bytes in index order, made of the frames that
follow a state with `total` bytes consumed, `cur` bytes counted for the open fragment and
the open fragment `pendingFragment`, if there is one. A frame opens a new fragment when
none is open or when the count with this frame reaches the target size; its node is the
one chosen for the frame; every frame goes whole into the fragment open after it. -/
def planFragments (reg : registry.Registry) (filename : String) (chunkSize : Int) :
    Int → Int → Option (String × Bytes) → List Bytes → List (String × Bytes)
  | _, _, pendingFragment, [] => pendingFragment.toList
  | total, _, none, b :: rest =>
    planFragments reg filename chunkSize (total + b.length) 0
      (some (selected reg filename (total + b.length) b, b)) rest
  | total, cur, some (address, pending), b :: rest =>
    if cur + b.length ≥ chunkSize then
      (address, pending) ::
        planFragments reg filename chunkSize (total + b.length) 0
          (some (selected reg filename (total + b.length) b, b)) rest
    else
      planFragments reg filename chunkSize (total + b.length) (cur + b.length)
        (some (address, pending ++ b)) rest

/-- A session that has chosen no node yet and holds no connection. -/
def ApiServer.Session.fresh (s : Session) : Prop := s.bucketServer = none ∧ s.grpcConn = none

/-- A session before its first frame: no node chosen, no connection, no record. -/
def ApiServer.Session.Initial (filename : String) (s : Session) : Prop :=
  s.bucketServer = none ∧ s.grpcConn = none ∧ s.fragmentNumber = -1 ∧
    addressesOf s.files filename = []

/-- A session with an open fragment. The fragments `closed` are recorded for the file, in
order, and stored on their nodes under their indices; the stream of the open fragment
goes to the chosen node `address` and has delivered the bytes `pending` under the next
index. -/
def ApiServer.Session.Streaming (filename : String) (s : Session)
    (closed : List (String × Bytes)) (address : String) (pending : Bytes) : Prop :=
  ∃ (srv : registry.Server) (conn : String) (st : Stream),
    s.bucketServer = some srv ∧ srv.Address = address ∧ s.grpcConn = some conn ∧
    s.grpcStream = some st ∧ st.finished = false ∧ st.address = address ∧
    BucketServer.received st.sent =
      { Filename := filename, Fragment := uint32 s.fragmentNumber, Data := pending } ∧
    (closed.length : Int) = s.fragmentNumber ∧
    addressesOf s.files filename = closed.map Prod.fst ∧
    fragmentsOf s.stores filename 0 (closed.map Prod.fst) = some (closed.map Prod.snd)

/-- The invariant of the read loop. -/
def ApiServer.Session.Inv (filename : String) (s : Session) (closed : List (String × Bytes)) :
    Option (String × Bytes) → Prop
  | none => s.Initial filename ∧ closed = []
  | some (address, pending) => s.Streaming filename closed address pending

/-- Every blob of `filename` on the nodes belongs to a fragment the session has closed. -/
def ApiServer.Session.Clean (filename : String) (s : Session) : Prop :=
  ∀ a k d, (s.stores a).blobs filename k = some d →
    ∃ j : Nat, (j : Int) < s.fragmentNumber ∧ k = uint32 j

/-- The counters of a session: every closed fragment took at least the target size and
at least one byte, and no more than the declared size was consumed. -/
def ApiServer.Session.Counted (fileSize chunkSize : Int) (s : Session) : Prop :=
  s.fragmentNumber * chunkSize + s.currentChunkSize ≤ s.totalBytes ∧
    s.fragmentNumber + 1 ≤ s.totalBytes ∧ 0 ≤ s.currentChunkSize ∧ s.totalBytes ≤ fileSize

/-! ## The node list and the selection key -/

/-- The node list of the specification: the registered addresses in registration order. -/
def nodeList (reg : registry.Registry) : List String :=
  reg.servers.map (fun srv => srv.Address)

/-- The 64-bit FNV-1 hash of a byte string, written on its own: from the offset basis,
for every byte in order, multiply by the FNV prime modulo `2 ^ 64`, then xor the byte. -/
def fnv1 (data : Bytes) : Nat :=
  data.foldl (fun hash c => ((hash * fnvPrime64) % 2 ^ 64) ^^^ c.toNat) fnvOffset64

/-- The little-endian encoding of `v` in `width` bytes: the lowest byte first. -/
def littleEndian : Nat → Nat → Bytes
  | 0, _ => []
  | width + 1, v => UInt8.ofNat (v % 256) :: littleEndian width (v / 256)

/-- The number a byte string encodes in little-endian order. -/
def leValue : Bytes → Nat
  | [] => 0
  | b :: rest => b.toNat + 256 * leValue rest

/-- The hash key of section 4.4 of the specification: the bytes of the filename, then the
cumulative byte count on 8 bytes in little-endian order, then the payload of the frame. -/
def selectionKey (filename : String) (count : Nat) (payload : Bytes) : Bytes :=
  stringBytes filename ++ littleEndian 8 count ++ payload

/-! ## Examples -/

/-- A node registry with the two nodes `A` and `B`, registered in that order. -/
def nodesAB : registry.Registry := { servers := [{ Address := "A" }, { Address := "B" }] }

/-- A node registry with the single node `A`. -/
def nodesA : registry.Registry := { servers := [{ Address := "A" }] }

/-- Nodes without any blob. -/
def emptyStores : Stores := fun _ => Storage.empty

/-- Nodes on which every blob is present, so that every delete succeeds. -/
def fullStores : Stores := fun _ => { blobs := fun _ _ => some [] }

/-- An environment in which only the transport of delete requests to `B` fails. -/
def deleteToBFails : Env :=
  { Env.reliable with deleteFragmentFails := fun address _ _ => decide (address = "B") }

/-- A registry whose only record, for `f`, is `Complete` with one fragment on `A`. -/
def completeF : fragment.Registry :=
  { Files := [("f", { Status := UploadStatusComplete, Name := "f", Addresses := ["A"] })],
    nodup := by decide }

/-- A registry whose only record, for `f`, is `Failed` with fragments on `A`, `B`, `C`. -/
def failedF : fragment.Registry :=
  { Files := [("f", { Status := UploadStatusFailed, Name := "f", Addresses := ["A", "B", "C"] })],
    nodup := by decide }

/-- A registry with the `Complete` record of `f` and a `Failed` record of `g`. -/
def completeFfailedG : fragment.Registry :=
  { Files := [("f", { Status := UploadStatusComplete, Name := "f", Addresses := ["A"] }),
              ("g", { Status := UploadStatusFailed, Name := "g", Addresses := ["A", "B"] })],
    nodup := by decide }

/-- Twelve bytes in four frames of 1, 2, 3 and 6 bytes. -/
def fourFrames : List Bytes := [[1], [2, 3], [4, 5, 6], [7, 8, 9, 10, 11, 12]]

/-! # Theorems -/

/-- Indices below `2^32` are not changed by the conversion to `uint32`. -/
theorem uint32_of_lt (i : Nat) (h : i < 2 ^ 32) : uint32 i = i := by
  unfold uint32
  have h' : ((i : Int) % 2 ^ 32) = i := Int.emod_eq_of_lt (by omega) (by exact_mod_cast h)
  rw [h']
  simp

/-! ## Lemmas on the entries of the metadata registry -/

namespace fragment

theorem lookup_modify_self (filename : String) (f : FileMeta → FileMeta)
    (l : List (String × FileMeta)) :
    lookup filename (modify filename f l) = (lookup filename l).map f := by
  induction l with
  | nil => rfl
  | cons e rest ih =>
    obtain ⟨k, v⟩ := e
    by_cases h : k = filename <;> simp [modify, lookup, h, ih]

theorem lookup_modify_of_ne {filename other : String} (h : other ≠ filename)
    (f : FileMeta → FileMeta) (l : List (String × FileMeta)) :
    lookup other (modify filename f l) = lookup other l := by
  induction l with
  | nil => rfl
  | cons e rest ih =>
    obtain ⟨k, v⟩ := e
    by_cases hk : k = filename
    · subst hk
      have : ¬ k = other := fun e => h e.symm
      simp [modify, lookup, this]
    · by_cases ho : k = other
      · subst ho
        simp [modify, lookup, hk]
      · simp [modify, lookup, hk, ho, ih]

theorem lookup_append (filename : String) (l l' : List (String × FileMeta)) :
    lookup filename (l ++ l') =
      match lookup filename l with
      | some v => some v
      | none => lookup filename l' := by
  induction l with
  | nil => rfl
  | cons e rest ih =>
    obtain ⟨k, v⟩ := e
    by_cases h : k = filename <;> simp [lookup, h, ih]

theorem lookup_erase_self (filename : String) (l : List (String × FileMeta)) :
    lookup filename (erase filename l) = none := by
  induction l with
  | nil => rfl
  | cons e rest ih =>
    obtain ⟨k, v⟩ := e
    by_cases h : k = filename
    · simpa [erase, List.filter, h] using ih
    · simpa [erase, List.filter, h, lookup] using ih

theorem lookup_erase_of_ne {filename other : String} (h : other ≠ filename)
    (l : List (String × FileMeta)) :
    lookup other (erase filename l) = lookup other l := by
  induction l with
  | nil => rfl
  | cons e rest ih =>
    obtain ⟨k, v⟩ := e
    by_cases hk : k = filename
    · subst hk
      have : ¬ k = other := fun e => h e.symm
      simpa [erase, List.filter, lookup, this] using ih
    · by_cases ho : k = other
      · subst ho
        simp [erase, List.filter, lookup, hk]
      · simpa [erase, List.filter, lookup, hk, ho] using ih

theorem lookup_addEntry_self (filename address : String) (l : List (String × FileMeta)) :
    lookup filename (addEntry filename address l) =
      match lookup filename l with
      | none => some { Status := 0, Name := filename, Addresses := [address] }
      | some fm => some { fm with Addresses := fm.Addresses ++ [address] } := by
  unfold addEntry
  cases h : lookup filename l with
  | none => simp [lookup_append, h, lookup]
  | some fm => simp [lookup_modify_self, h]

theorem lookup_addEntry_of_ne {filename other : String} (h : other ≠ filename)
    (address : String) (l : List (String × FileMeta)) :
    lookup other (addEntry filename address l) = lookup other l := by
  unfold addEntry
  cases hl : lookup filename l with
  | none =>
    have : ¬ filename = other := fun e => h e.symm
    cases ho : lookup other l <;> simp [lookup_append, ho, lookup, this]
  | some fm => simp [lookup_modify_of_ne h]

end fragment

/-! ## The download of a stored file -/

theorem readWindows_flatten (n : Nat) (hn : 0 < n) (fuel : Nat) (data : Bytes)
    (h : data.length ≤ fuel) : (BucketServer.readWindows n fuel data).flatten = data := by
  induction fuel generalizing data with
  | zero =>
    have : data = [] := List.length_eq_zero.mp (by omega)
    simp [BucketServer.readWindows, this]
  | succ fuel ih =>
    by_cases hd : data.length = 0
    · have : data = [] := List.length_eq_zero.mp hd
      simp [BucketServer.readWindows, this]
    · have hlen : (data.drop n).length ≤ fuel := by
        rw [List.length_drop]; omega
      simp [BucketServer.readWindows, hd, ih _ hlen]

@[simp] theorem reliable_upgradeFails : Env.reliable.upgradeFails = false := rfl

@[simp] theorem reliable_newClientFails (a : String) : Env.reliable.newClientFails a = false :=
  rfl

@[simp] theorem reliable_downloadChunksFails (a f : String) (k : Nat) :
    Env.reliable.downloadChunksFails a f k = false := rfl

@[simp] theorem reliable_recvFails (a f : String) (k i : Nat) :
    Env.reliable.recvFails a f k i = false := rfl

@[simp] theorem reliable_writeMessageFails (b : Bytes) :
    Env.reliable.writeMessageFails b = false := rfl

theorem relayChunks_reliable (address filename : String) (fragment i : Nat)
    (chunks : List Bytes) :
    relayChunks Env.reliable address filename fragment i chunks =
      (true, chunks.map (fun c => Event.writeMessage c true)) := by
  induction chunks generalizing i with
  | nil => simp [relayChunks]
  | cons c rest ih => simp [relayChunks, ih]

theorem relayed_append (xs ys : List Event) : relayed (xs ++ ys) = relayed xs ++ relayed ys := by
  induction xs with
  | nil => rfl
  | cons e rest ih =>
    cases e with
    | writeMessage data ok => cases ok <;> simp [relayed, ih]
    | _ => simp [relayed, ih]

theorem relayed_writes (chunks : List Bytes) :
    relayed (chunks.map (fun c => Event.writeMessage c true)) = chunks := by
  induction chunks with
  | nil => rfl
  | cons c rest ih => simp [relayed, ih]

/-- In a reliable environment the fragment loop of `download` relays every blob of the
record, in index order. -/
theorem downloadFragments_reliable (stores : Stores) (filename : String) (i : Nat)
    (addresses : List String) (ds : List Bytes)
    (h : fragmentsOf stores filename i addresses = some ds) :
    (downloadFragments Env.reliable stores filename i addresses).1 = true ∧
      (relayed (downloadFragments Env.reliable stores filename i addresses).2).flatten
        = ds.flatten := by
  induction addresses generalizing i ds with
  | nil =>
    simp only [fragmentsOf, Option.some.injEq] at h
    subst h
    simp [downloadFragments, relayed]
  | cons a rest ih =>
    simp only [fragmentsOf] at h
    cases hb : (stores a).blobs filename (uint32 i) with
    | none => simp [hb] at h
    | some data =>
      simp only [hb, Option.map_eq_some'] at h
      obtain ⟨ds', hds', rfl⟩ := h
      obtain ⟨ih1, ih2⟩ := ih (i + 1) ds' hds'
      have hw := readWindows_flatten BucketServer.readChunkSize (by decide) data.length data
        (le_refl _)
      simp only [downloadFragments, reliable_newClientFails, reliable_downloadChunksFails,
        BucketServer.DownloadChunks, fragment.Storage.Get, hb, Option.map_some',
        relayChunks_reliable]
      generalize downloadFragments Env.reliable stores filename (i + 1) rest = r at ih1 ih2
      obtain ⟨ok, evs⟩ := r
      simp only at ih1 ih2
      subst ih1
      simp [relayed_append, relayed, relayed_writes, ih2, hw]

/-- The download of a `Complete` record whose blobs are all present relays them in
order and ends with the empty frame. -/
theorem download_reliable (files : fragment.Registry) (stores : Stores) (filename : String)
    (fm : FileMeta) (ds : List Bytes) (hname : filename ≠ "")
    (hget : files.get filename = some fm) (hstatus : fm.Status = UploadStatusComplete)
    (h : fragmentsOf stores filename 0 fm.Addresses = some ds) :
    (download Env.reliable files stores filename).outcome = .returned ∧
      (relayed (download Env.reliable files stores filename).trace).flatten = ds.flatten := by
  obtain ⟨h1, h2⟩ := downloadFragments_reliable stores filename 0 fm.Addresses ds h
  simp only [download, hname, hget, hstatus, reliable_upgradeFails, if_false, ne_eq,
    not_true_eq_false]
  generalize downloadFragments Env.reliable stores filename 0 fm.Addresses = r at h1 h2
  obtain ⟨ok, evs⟩ := r
  simp only at h1 h2
  subst h1
  simp [relayed_append, relayed, h2]

@[simp] theorem allOk_nil : allOk [] := by simp [allOk]

@[simp] theorem allOk_cons (e : Event) (evs : List Event) :
    allOk (e :: evs) ↔ e.ok = true ∧ allOk evs := by simp [allOk]

@[simp] theorem allOk_append (xs ys : List Event) :
    allOk (xs ++ ys) ↔ allOk xs ∧ allOk ys := by
  simp only [allOk, List.mem_append]
  constructor
  · intro h
    exact ⟨fun e he => h e (Or.inl he), fun e he => h e (Or.inr he)⟩
  · rintro ⟨h1, h2⟩ e (he | he)
    · exact h1 e he
    · exact h2 e he

theorem chooseServer_some (reg : registry.Registry) (filename : String) (totalBytes : Int)
    (payload : Bytes) (h : reg.servers ≠ []) :
    ∃ srv, chooseServer reg filename totalBytes payload = some srv := by
  have hlen : 0 < reg.servers.length := List.length_pos.mpr h
  have hne : reg.servers.length ≠ 0 := by omega
  simp only [chooseServer, registry.Registry.GetServer, hne, if_false]
  exact ⟨_, List.getElem?_eq_getElem (Nat.mod_lt _ hlen)⟩

theorem received_append (sent : List UploadChunk) (c : UploadChunk) :
    BucketServer.received (sent ++ [c]) =
      { Filename := c.Filename, Fragment := c.Fragment,
        Data := (BucketServer.received sent).Data ++ c.Data } := by
  simp [BucketServer.received, List.foldl_append]

/-- A `Put` on any node leaves every blob that exists as it is. -/
theorem blob_after_put (stores : Stores) (target name : String) (index : Nat)
    (content : Bytes) (a f : String) (k : Nat) (d : Bytes)
    (h : (stores a).blobs f k = some d) :
    ((stores.set target ((stores target).Put name index content).1) a).blobs f k = some d := by
  unfold Stores.set
  by_cases ha : a = target
  · subst ha
    simp only [if_true, Storage.Put]
    cases hb : (stores a).blobs name index with
    | some old => simpa using h
    | none =>
      simp only
      by_cases hk : f = name ∧ k = index
      · obtain ⟨rfl, rfl⟩ := hk
        rw [hb] at h
        cases h
      · simp only [hk, if_false]
        exact h
  · simpa [ha] using h

/-- A successful `Put` leaves the content at its key. -/
theorem blob_of_put_ok (stores : Stores) (target name : String) (index : Nat)
    (content : Bytes) (h : ((stores target).Put name index content).2 = true) :
    ((stores.set target ((stores target).Put name index content).1) target).blobs name index
      = some content := by
  unfold Stores.set
  simp only [if_true, Storage.Put] at h ⊢
  cases hb : (stores target).blobs name index with
  | some old => simp [hb] at h
  | none => simp

theorem fragmentsOf_after_put (stores : Stores) (target name : String) (index : Nat)
    (content : Bytes) (filename : String) (i : Nat) (addresses : List String)
    (ds : List Bytes) (h : fragmentsOf stores filename i addresses = some ds) :
    fragmentsOf (stores.set target ((stores target).Put name index content).1) filename i
      addresses = some ds := by
  induction addresses generalizing i ds with
  | nil => simpa [fragmentsOf] using h
  | cons a rest ih =>
    simp only [fragmentsOf] at h ⊢
    cases hb : (stores a).blobs filename (uint32 i) with
    | none => simp [hb] at h
    | some d =>
      simp only [hb, Option.map_eq_some'] at h
      obtain ⟨ds', hds', rfl⟩ := h
      rw [blob_after_put stores target name index content a filename _ d hb]
      simp [ih (i + 1) ds' hds']

theorem fragmentsOf_append_one (stores : Stores) (filename : String) (i : Nat)
    (addresses : List String) (ds : List Bytes) (a : String) (d : Bytes)
    (h : fragmentsOf stores filename i addresses = some ds)
    (hb : (stores a).blobs filename (uint32 ((i + addresses.length : Nat) : Int)) = some d) :
    fragmentsOf stores filename i (addresses ++ [a]) = some (ds ++ [d]) := by
  induction addresses generalizing i ds with
  | nil =>
    simp only [fragmentsOf, Option.some.injEq] at h
    subst h
    simp only [List.length_nil, Nat.add_zero] at hb
    simp [fragmentsOf, hb]
  | cons x rest ih =>
    simp only [fragmentsOf] at h
    cases hx : (stores x).blobs filename (uint32 i) with
    | none => simp [hx] at h
    | some dx =>
      simp only [hx, Option.map_eq_some'] at h
      obtain ⟨ds', hds', rfl⟩ := h
      have hb' : (stores a).blobs filename (uint32 ((i + 1 + rest.length : Nat) : Int))
          = some d := by
        have : i + (x :: rest).length = i + 1 + rest.length := by
          simp only [List.length_cons]; omega
        rw [← this]; exact hb
      simp [fragmentsOf, hx, ih (i + 1) ds' hds' hb']

theorem addressesOf_addFragment (env : Env) (r : fragment.Registry)
    (filename address : String) :
    addressesOf (r.AddFragment env filename address).1 filename
      = addressesOf r filename ++ [address] := by
  simp only [addressesOf, Registry.get, Registry.AddFragment, lookup_addEntry_self]
  cases lookup filename r.Files <;> simp

theorem get_setStatus_addFragment (env : Env) (r : fragment.Registry)
    (filename address : String) (status : UploadStatus) :
    ∃ fm, ((r.AddFragment env filename address).1.SetStatus env filename status).1.get filename
        = some fm ∧ fm.Status = status ∧
      fm.Addresses = addressesOf r filename ++ [address] := by
  have h := lookup_addEntry_self filename address r.Files
  cases hl : lookup filename r.Files with
  | none =>
    rw [hl] at h
    simp [Registry.SetStatus, Registry.get, Registry.AddFragment, h, lookup_modify_self,
      addressesOf, hl]
  | some fm =>
    rw [hl] at h
    simp [Registry.SetStatus, Registry.get, Registry.AddFragment, h, lookup_modify_self,
      addressesOf, hl]

/-! ## The upload session, frame by frame -/

theorem selected_of_chooseServer {reg : registry.Registry} {filename : String}
    {totalBytes : Int} {payload : Bytes} {srv : registry.Server}
    (h : chooseServer reg filename totalBytes payload = some srv) :
    selected reg filename totalBytes payload = srv.Address := by
  simp [selected, h]

/-- The result of the first frame of a session when no call fails. -/
theorem uploadFrame_initial_eq (env : Env) (reg : registry.Registry) (filename : String)
    (chunkSize : Int) (b : Bytes) (s : Session) (srv : registry.Server)
    (hb : s.bucketServer = none) (hc : s.grpcConn = none)
    (hsrv : chooseServer reg filename (s.totalBytes + b.length) b = some srv)
    (hnc : env.newClientFails srv.Address = false)
    (huc : env.uploadChunksFails srv.Address = false)
    (hsf : env.sendFails srv.Address
      { Filename := filename, Fragment := uint32 (s.fragmentNumber + 1), Data := b } = false) :
    uploadFrame env reg filename chunkSize b s =
      ({ totalBytes := s.totalBytes + b.length, currentChunkSize := 0,
         grpcConn := some srv.Address, bucketServer := some srv,
         grpcStream := some
           { address := srv.Address,
             sent := [{ Filename := filename, Fragment := uint32 (s.fragmentNumber + 1),
                        Data := b }],
             finished := false },
         fragmentNumber := s.fragmentNumber + 1, files := s.files, stores := s.stores },
        none,
        [.getServer (some srv), .newClient srv.Address true, .uploadChunks srv.Address true,
          .send srv.Address
            { Filename := filename, Fragment := uint32 (s.fragmentNumber + 1), Data := b }
            true]) := by
  simp [uploadFrame, openFragment, closeStream, sendChunk, hb, hc, hsrv, hnc, huc, hsf]

/-- The first frame of a session opens fragment 0. -/
theorem uploadFrame_initial (env : Env) (reg : registry.Registry) (filename : String)
    (chunkSize : Int) (b : Bytes) (s : Session) (hs : s.Initial filename)
    (hnodes : reg.servers ≠ [])
    (hok : allOk (uploadFrame env reg filename chunkSize b s).2.2) :
    (uploadFrame env reg filename chunkSize b s).2.1 = none ∧
      (uploadFrame env reg filename chunkSize b s).1.Streaming filename []
        (selected reg filename (s.totalBytes + b.length) b) b ∧
      (uploadFrame env reg filename chunkSize b s).1.totalBytes = s.totalBytes + b.length ∧
      (uploadFrame env reg filename chunkSize b s).1.currentChunkSize = 0 := by
  obtain ⟨hb, hc, hf, ha⟩ := hs
  obtain ⟨srv, hsrv⟩ := chooseServer_some reg filename (s.totalBytes + b.length) b hnodes
  by_cases hnc : env.newClientFails srv.Address = true
  · simp [uploadFrame, openFragment, closeStream, hb, hc, hsrv, hnc, Event.ok] at hok
  by_cases huc : env.uploadChunksFails srv.Address = true
  · simp [uploadFrame, openFragment, closeStream, hb, hc, hsrv, hnc, huc, Event.ok] at hok
  by_cases hsf : env.sendFails srv.Address
      { Filename := filename, Fragment := uint32 (s.fragmentNumber + 1), Data := b } = true
  · simp [uploadFrame, openFragment, closeStream, sendChunk, hb, hc, hsrv, hnc, huc, hsf,
      Event.ok] at hok
  rw [uploadFrame_initial_eq env reg filename chunkSize b s srv hb hc hsrv (by simpa using hnc)
    (by simpa using huc) (by simpa using hsf), selected_of_chooseServer hsrv]
  refine ⟨rfl, ⟨srv, srv.Address, _, rfl, rfl, rfl, rfl, rfl, rfl, ?_, ?_, ?_, ?_⟩, rfl, rfl⟩
  · simp [BucketServer.received]
  · simp [hf]
  · simp [ha]
  · simp [fragmentsOf]

/-- The result of a frame that reaches the target size when no call fails. -/
theorem uploadFrame_boundary_eq (env : Env) (reg : registry.Registry) (filename : String)
    (chunkSize : Int) (b : Bytes) (s : Session) (prev srv : registry.Server) (conn : String)
    (st : Stream) (pending : Bytes)
    (hb : s.bucketServer = some prev) (hc : s.grpcConn = some conn)
    (hst : s.grpcStream = some st) (hfin : st.finished = false)
    (hrecv : BucketServer.received st.sent =
      { Filename := filename, Fragment := uint32 s.fragmentNumber, Data := pending })
    (hbound : s.currentChunkSize + b.length ≥ chunkSize)
    (hsrv : chooseServer reg filename (s.totalBytes + b.length) b = some srv)
    (hadd : (s.files.AddFragment env filename prev.Address).2 = true)
    (hnc : env.newClientFails srv.Address = false)
    (huc : env.uploadChunksFails srv.Address = false)
    (hsf : env.sendFails srv.Address
      { Filename := filename, Fragment := uint32 (s.fragmentNumber + 1), Data := b } = false)
    (hstored :
      ((s.stores st.address).Put filename (uint32 s.fragmentNumber) pending).2 = true) :
    uploadFrame env reg filename chunkSize b s =
      ({ totalBytes := s.totalBytes + b.length, currentChunkSize := 0,
         grpcConn := some srv.Address, bucketServer := some srv,
         grpcStream := some
           { address := srv.Address,
             sent := [{ Filename := filename, Fragment := uint32 (s.fragmentNumber + 1),
                        Data := b }],
             finished := false },
         fragmentNumber := s.fragmentNumber + 1,
         files := (s.files.AddFragment env filename prev.Address).1,
         stores := s.stores.set st.address
           ((s.stores st.address).Put filename (uint32 s.fragmentNumber) pending).1 },
        none,
        [.addFragment filename prev.Address true, .getServer (some srv),
          .closeAndRecv st.address
            (some { Filename := filename, Fragment := uint32 s.fragmentNumber,
                    Data := pending }) true,
          .newClient srv.Address true, .uploadChunks srv.Address true,
          .send srv.Address
            { Filename := filename, Fragment := uint32 (s.fragmentNumber + 1), Data := b }
            true]) := by
  have hput : BucketServer.UploadChunks (s.stores st.address) st.sent =
      (s.stores st.address).Put filename (uint32 s.fragmentNumber) pending := by
    simp [BucketServer.UploadChunks, hrecv]
  simp [uploadFrame, openFragment, closeStream, sendChunk, hb, hc, hst, hfin, hbound,
    hadd, hsrv, hnc, huc, hsf, hput, hstored, hrecv]

/-- A frame that reaches the target size closes the open fragment, which is recorded and
stored, and opens the next one. -/
theorem uploadFrame_boundary (env : Env) (reg : registry.Registry) (filename : String)
    (chunkSize : Int) (b : Bytes) (s : Session) (closed : List (String × Bytes))
    (address : String) (pending : Bytes)
    (hs : s.Streaming filename closed address pending) (hnodes : reg.servers ≠ [])
    (hbound : s.currentChunkSize + b.length ≥ chunkSize)
    (hok : allOk (uploadFrame env reg filename chunkSize b s).2.2) :
    (uploadFrame env reg filename chunkSize b s).2.1 = none ∧
      (uploadFrame env reg filename chunkSize b s).1.Streaming filename
        (closed ++ [(address, pending)]) (selected reg filename (s.totalBytes + b.length) b) b ∧
      (uploadFrame env reg filename chunkSize b s).1.totalBytes = s.totalBytes + b.length ∧
      (uploadFrame env reg filename chunkSize b s).1.currentChunkSize = 0 := by
  obtain ⟨prev, conn, st, hb, hprev, hc, hst, hfin, haddr, hrecv, hlen, hrec, hfrag⟩ := hs
  obtain ⟨srv, hsrv⟩ := chooseServer_some reg filename (s.totalBytes + b.length) b hnodes
  have hput : BucketServer.UploadChunks (s.stores st.address) st.sent =
      (s.stores st.address).Put filename (uint32 s.fragmentNumber) pending := by
    simp [BucketServer.UploadChunks, hrecv]
  have hchunk : ∀ c : UploadChunk, BucketServer.received [c] = c := by
    intro c; simp [BucketServer.received]
  by_cases hadd : (s.files.AddFragment env filename prev.Address).2 = true
  swap
  · simp [uploadFrame, openFragment, hb, hbound, hadd, Event.ok] at hok
  by_cases hnc : env.newClientFails srv.Address = true
  · simp [uploadFrame, openFragment, closeStream, hb, hc, hst, hfin, hbound, hadd, hsrv,
      hnc, Event.ok] at hok
  by_cases huc : env.uploadChunksFails srv.Address = true
  · simp [uploadFrame, openFragment, closeStream, hb, hc, hst, hfin, hbound, hadd, hsrv,
      hnc, huc, Event.ok] at hok
  by_cases hsf : env.sendFails srv.Address
      { Filename := filename, Fragment := uint32 (s.fragmentNumber + 1), Data := b } = true
  · simp [uploadFrame, openFragment, closeStream, sendChunk, hb, hc, hst, hfin, hbound,
      hadd, hsrv, hnc, huc, hsf, Event.ok] at hok
  by_cases hstored :
      ((s.stores st.address).Put filename (uint32 s.fragmentNumber) pending).2 = true
  swap
  · simp [uploadFrame, openFragment, closeStream, sendChunk, hb, hc, hst, hfin, hbound,
      hadd, hsrv, hnc, huc, hsf, hput, hstored, Event.ok] at hok
  rw [uploadFrame_boundary_eq env reg filename chunkSize b s prev srv conn st pending hb hc
    hst hfin hrecv hbound hsrv hadd (by simpa using hnc) (by simpa using huc)
    (by simpa using hsf) hstored, selected_of_chooseServer hsrv]
  refine ⟨rfl, ⟨srv, srv.Address, _, rfl, rfl, rfl, rfl, rfl, rfl, hchunk _, ?_, ?_, ?_⟩,
    rfl, rfl⟩
  · simp only [List.length_append, List.length_singleton]
    push_cast
    omega
  · simp only [addressesOf_addFragment, hrec, hprev, List.map_append, List.map_cons,
      List.map_nil]
  · simp only [List.map_append, List.map_cons, List.map_nil]
    apply fragmentsOf_append_one
    · exact fragmentsOf_after_put _ _ _ _ _ _ _ _ _ hfrag
    · have hidx : uint32 ((0 + (closed.map Prod.fst).length : Nat) : Int)
          = uint32 s.fragmentNumber := by
        simp [hlen]
      rw [hidx, ← haddr]
      exact blob_of_put_ok _ _ _ _ _ hstored

/-- The result of a frame below the target size when the send succeeds. -/
theorem uploadFrame_join_eq (env : Env) (reg : registry.Registry) (filename : String)
    (chunkSize : Int) (b : Bytes) (s : Session) (prev : registry.Server) (st : Stream)
    (hb : s.bucketServer = some prev) (hst : s.grpcStream = some st)
    (hfin : st.finished = false)
    (hbound : ¬ s.currentChunkSize + b.length ≥ chunkSize)
    (hsf : env.sendFails st.address
      { Filename := filename, Fragment := uint32 s.fragmentNumber, Data := b } = false) :
    uploadFrame env reg filename chunkSize b s =
      ({ s with totalBytes := s.totalBytes + b.length,
                currentChunkSize := s.currentChunkSize + b.length,
                grpcStream := some
                  { st with sent := st.sent ++
                      [{ Filename := filename, Fragment := uint32 s.fragmentNumber,
                         Data := b }] } },
        none,
        [.send st.address
          { Filename := filename, Fragment := uint32 s.fragmentNumber, Data := b } true]) := by
  simp [uploadFrame, sendChunk, hb, hst, hfin, hbound, hsf]

/-- A frame below the target size joins the open fragment. -/
theorem uploadFrame_join (env : Env) (reg : registry.Registry) (filename : String)
    (chunkSize : Int) (b : Bytes) (s : Session) (closed : List (String × Bytes))
    (address : String) (pending : Bytes)
    (hs : s.Streaming filename closed address pending)
    (hbound : ¬ s.currentChunkSize + b.length ≥ chunkSize)
    (hok : allOk (uploadFrame env reg filename chunkSize b s).2.2) :
    (uploadFrame env reg filename chunkSize b s).2.1 = none ∧
      (uploadFrame env reg filename chunkSize b s).1.Streaming filename closed address
        (pending ++ b) ∧
      (uploadFrame env reg filename chunkSize b s).1.totalBytes = s.totalBytes + b.length ∧
      (uploadFrame env reg filename chunkSize b s).1.currentChunkSize
        = s.currentChunkSize + b.length := by
  obtain ⟨prev, conn, st, hb, hprev, hc, hst, hfin, haddr, hrecv, hlen, hrec, hfrag⟩ := hs
  by_cases hsf : env.sendFails st.address
      { Filename := filename, Fragment := uint32 s.fragmentNumber, Data := b } = true
  · simp [uploadFrame, sendChunk, hb, hst, hfin, hbound, hsf, Event.ok] at hok
  rw [uploadFrame_join_eq env reg filename chunkSize b s prev st hb hst hfin hbound
    (by simpa using hsf)]
  refine ⟨rfl, ⟨prev, conn, _, hb, hprev, hc, rfl, hfin, haddr, ?_, hlen, hrec, hfrag⟩, rfl,
    rfl⟩
  simp [received_append, hrecv]

theorem uploadLoop_done (env : Env) (reg : registry.Registry) (filename : String)
    (fileSize chunkSize : Int) (s : Session) (inbound : List ReadResult)
    (h : s.totalBytes ≥ fileSize) :
    uploadLoop env reg filename fileSize chunkSize s inbound = (s, .completed, []) := by
  cases inbound with
  | nil => simp [uploadLoop, h]
  | cons r rest => cases r <;> simp [uploadLoop, h]

/-- One frame keeps the invariant and follows the chunking rule. -/
theorem uploadFrame_plan (env : Env) (reg : registry.Registry) (filename : String)
    (chunkSize : Int) (b : Bytes) (frames : List Bytes) (s : Session)
    (closed : List (String × Bytes)) (pendingFragment : Option (String × Bytes))
    (hs : s.Inv filename closed pendingFragment) (hnodes : reg.servers ≠ [])
    (hok : allOk (uploadFrame env reg filename chunkSize b s).2.2) :
    (uploadFrame env reg filename chunkSize b s).2.1 = none ∧
      (uploadFrame env reg filename chunkSize b s).1.totalBytes = s.totalBytes + b.length ∧
      ∃ closed1 address1 pending1,
        (uploadFrame env reg filename chunkSize b s).1.Streaming filename closed1 address1
          pending1 ∧
        closed ++ planFragments reg filename chunkSize s.totalBytes s.currentChunkSize
            pendingFragment (b :: frames) =
          closed1 ++ planFragments reg filename chunkSize
            (uploadFrame env reg filename chunkSize b s).1.totalBytes
            (uploadFrame env reg filename chunkSize b s).1.currentChunkSize
            (some (address1, pending1)) frames := by
  cases pendingFragment with
  | none =>
    obtain ⟨hi, rfl⟩ := hs
    obtain ⟨h1, h2, h3, h4⟩ := uploadFrame_initial env reg filename chunkSize b s hi hnodes hok
    exact ⟨h1, h3, [], _, _, h2, by simp only [planFragments, h3, h4]⟩
  | some pendingFragment =>
    obtain ⟨address, pending⟩ := pendingFragment
    by_cases hbound : s.currentChunkSize + b.length ≥ chunkSize
    · obtain ⟨h1, h2, h3, h4⟩ := uploadFrame_boundary env reg filename chunkSize b s closed
        address pending hs hnodes hbound hok
      refine ⟨h1, h3, _, _, _, h2, ?_⟩
      simp only [planFragments, hbound, if_true, h3, h4, List.append_assoc,
        List.singleton_append]
    · obtain ⟨h1, h2, h3, h4⟩ := uploadFrame_join env reg filename chunkSize b s closed
        address pending hs hbound hok
      refine ⟨h1, h3, _, _, _, h2, ?_⟩
      simp only [planFragments, hbound, if_false, h3, h4]

/-- The read loop over the announced frames ends by `break`, and the fragments recorded
and stored, followed by the open one, are those of the chunking rule. -/
theorem uploadLoop_plan (env : Env) (reg : registry.Registry) (filename : String)
    (fileSize chunkSize : Int) (frames : List Bytes) (rest : List ReadResult) (s : Session)
    (closed : List (String × Bytes)) (pendingFragment : Option (String × Bytes))
    (hs : s.Inv filename closed pendingFragment) (hnodes : reg.servers ≠ [])
    (hframes : ∀ b ∈ frames, b ≠ [])
    (hsum : s.totalBytes + ((frames.map List.length).sum : Nat) = fileSize)
    (hok : allOk (uploadLoop env reg filename fileSize chunkSize s
      (frames.map .message ++ rest)).2.2) :
    (uploadLoop env reg filename fileSize chunkSize s (frames.map .message ++ rest)).2.1
        = .completed ∧
      ∃ closed1 pendingFragment1,
        (uploadLoop env reg filename fileSize chunkSize s
          (frames.map .message ++ rest)).1.Inv filename closed1 pendingFragment1 ∧
        closed1 ++ pendingFragment1.toList =
          closed ++ planFragments reg filename chunkSize s.totalBytes s.currentChunkSize
            pendingFragment frames := by
  induction frames generalizing s closed pendingFragment with
  | nil =>
    have hge : s.totalBytes ≥ fileSize := by simp at hsum; omega
    simp only [List.map_nil, List.nil_append, uploadLoop_done _ _ _ _ _ _ _ hge]
    exact ⟨trivial, closed, pendingFragment, hs, by simp [planFragments]⟩
  | cons b frames ih =>
    have hb : b ≠ [] := hframes b (List.mem_cons_self _ _)
    have hpos : 0 < b.length := List.length_pos.mpr hb
    have hlen : ¬ b.length = 0 := by omega
    have hlt : ¬ s.totalBytes ≥ fileSize := by
      simp only [List.map_cons, List.sum_cons, Nat.cast_add] at hsum
      omega
    simp only [List.map_cons, List.cons_append, uploadLoop, hlt, hlen, if_false] at hok ⊢
    have step := uploadFrame_plan env reg filename chunkSize b frames s closed pendingFragment
      hs hnodes
    rcases hr : uploadFrame env reg filename chunkSize b s with ⟨s1, x, evs⟩
    rw [hr] at hok step
    simp only at step
    cases x with
    | some exit =>
      simp only [allOk_cons] at hok
      exact absurd (step hok.2).1 (by simp)
    | none =>
      simp only [allOk_cons, allOk_append] at hok
      obtain ⟨-, hevs, hrest⟩ := hok
      obtain ⟨-, htotal, closed1, address1, pending1, hstream, hplan⟩ := step hevs
      have hsum' : s1.totalBytes + ((frames.map List.length).sum : Nat) = fileSize := by
        simp only [List.map_cons, List.sum_cons, Nat.cast_add] at hsum
        omega
      obtain ⟨ih1, closed2, pending2, hinv, hplan2⟩ :=
        ih s1 closed1 (some (address1, pending1)) hstream
          (fun x hx => hframes x (List.mem_cons_of_mem _ hx)) hsum' hrest
      exact ⟨ih1, closed2, pending2, hinv, hplan2.trans hplan.symm⟩

/-- The chunking rule loses no byte, duplicates none and keeps the order. -/
theorem planFragments_flatten (reg : registry.Registry) (filename : String) (chunkSize : Int)
    (total cur : Int) (pendingFragment : Option (String × Bytes)) (frames : List Bytes) :
    ((planFragments reg filename chunkSize total cur pendingFragment frames).map
        Prod.snd).flatten =
      (pendingFragment.toList.map Prod.snd).flatten ++ frames.flatten := by
  induction frames generalizing total cur pendingFragment with
  | nil => simp [planFragments]
  | cons b frames ih =>
    cases pendingFragment with
    | none => simp [planFragments, ih]
    | some pendingFragment =>
      obtain ⟨address, pending⟩ := pendingFragment
      by_cases hbound : cur + b.length ≥ chunkSize <;> simp [planFragments, hbound, ih]

/-- After a frame, the chunking rule has an open fragment. -/
theorem planFragments_ne_nil (reg : registry.Registry) (filename : String) (chunkSize : Int)
    (total cur : Int) (pendingFragment : Option (String × Bytes)) (frames : List Bytes)
    (h : frames ≠ [] ∨ pendingFragment ≠ none) :
    planFragments reg filename chunkSize total cur pendingFragment frames ≠ [] := by
  induction frames generalizing total cur pendingFragment with
  | nil =>
    cases pendingFragment with
    | none => simp at h
    | some p => simp [planFragments]
  | cons b frames ih =>
    cases pendingFragment with
    | none =>
      simp only [planFragments]
      exact ih _ _ _ (Or.inr (by simp))
    | some pendingFragment =>
      obtain ⟨address, pending⟩ := pendingFragment
      by_cases hbound : cur + b.length ≥ chunkSize
      · simp [planFragments, hbound]
      · simp only [planFragments, hbound, if_false]
        exact ih _ _ _ (Or.inr (by simp))

/-- The deferred functions on a session with an open fragment, left by `break`: when
they meet no error, the record is `Complete` and lists the closed fragments and the open
one, all stored on their nodes. -/
theorem uploadSession_finish (env : Env) (filename : String) (s : Session)
    (closed : List (String × Bytes)) (address : String) (pending : Bytes)
    (hs : s.Streaming filename closed address pending) :
    ∃ s2 evs2 s3 evs3, closeStream s = some (s2, evs2) ∧
      finalize env filename UploadStatusComplete s2 = some (s3, evs3) ∧
      (allOk (evs2 ++ evs3) →
        ∃ fm, s3.files.get filename = some fm ∧ fm.Status = UploadStatusComplete ∧
          fm.Addresses = (closed ++ [(address, pending)]).map Prod.fst ∧
          fragmentsOf s3.stores filename 0 fm.Addresses =
            some ((closed ++ [(address, pending)]).map Prod.snd)) := by
  obtain ⟨srv, conn, st, hb, hsrv, hc, hst, hfin, haddr, hrecv, hlen, hrec, hfrag⟩ := hs
  have hput : BucketServer.UploadChunks (s.stores st.address) st.sent =
      (s.stores st.address).Put filename (uint32 s.fragmentNumber) pending := by
    simp [BucketServer.UploadChunks, hrecv]
  have hclose : closeStream s =
      some ({ s with stores := s.stores.set st.address
                      ((s.stores st.address).Put filename (uint32 s.fragmentNumber) pending).1,
                     grpcStream := some { st with finished := true } },
        [.closeAndRecv st.address
          (some { Filename := filename, Fragment := uint32 s.fragmentNumber, Data := pending })
          ((s.stores st.address).Put filename (uint32 s.fragmentNumber) pending).2]) := by
    simp [closeStream, hc, hst, hfin, hput, hrecv]
  obtain ⟨fm, hfm, hstatus, haddrs⟩ :=
    get_setStatus_addFragment env s.files filename srv.Address UploadStatusComplete
  by_cases hadd : (s.files.AddFragment env filename srv.Address).2 = true
  · refine ⟨_, _,
      { s with stores := s.stores.set st.address
                 ((s.stores st.address).Put filename (uint32 s.fragmentNumber) pending).1,
               grpcStream := some { st with finished := true },
               files := ((s.files.AddFragment env filename srv.Address).1.SetStatus env filename
                 UploadStatusComplete).1 },
      [.addFragment filename srv.Address true,
        .setStatus filename UploadStatusComplete
          ((s.files.AddFragment env filename srv.Address).1.SetStatus env filename
            UploadStatusComplete).2],
      hclose, ?_, ?_⟩
    · simp [finalize, hb, hadd]
    · intro hok
      simp only [List.singleton_append, allOk_cons, Event.ok] at hok
      have haddrs' : fm.Addresses = (closed ++ [(address, pending)]).map Prod.fst := by
        simp [haddrs, hrec, hsrv]
      refine ⟨fm, hfm, hstatus, haddrs', ?_⟩
      rw [haddrs']
      simp only [List.map_append, List.map_cons, List.map_nil]
      apply fragmentsOf_append_one
      · exact fragmentsOf_after_put _ _ _ _ _ _ _ _ _ hfrag
      · have hidx : uint32 ((0 + (closed.map Prod.fst).length : Nat) : Int)
            = uint32 s.fragmentNumber := by
          simp [hlen]
        rw [hidx, ← haddr]
        exact blob_of_put_ok _ _ _ _ _ hok.1
  · refine ⟨_, _,
      { s with stores := s.stores.set st.address
                 ((s.stores st.address).Put filename (uint32 s.fragmentNumber) pending).1,
               grpcStream := some { st with finished := true },
               files := (s.files.AddFragment env filename srv.Address).1 },
      [.addFragment filename srv.Address false], hclose, ?_, ?_⟩
    · simp [finalize, hb, hadd]
    · intro hok
      simp [Event.ok] at hok

/-- An upload session that meets no error leaves a `Complete` record that lists, in
order, the nodes of the fragments of the chunking rule, and every fragment is stored on
its node under its index. -/
theorem uploadSession_plan (env : Env) (reg : registry.Registry)
    (files : fragment.Registry) (stores : Stores) (filename : String) (size : Int)
    (frames : List Bytes) (rest : List ReadResult)
    (hrecord : files.get filename = none) (hnodes : reg.servers ≠ [])
    (hsize : 1 ≤ size) (hframes : ∀ b ∈ frames, b ≠ [])
    (hsum : (((frames.map List.length).sum : Nat) : Int) = size)
    (hok : allOk (uploadSession env reg files stores filename size
      (frames.map .message ++ rest)).trace) :
    (uploadSession env reg files stores filename size (frames.map .message ++ rest)).outcome
        = .returned ∧
      ∃ fm,
        (uploadSession env reg files stores filename size
          (frames.map .message ++ rest)).files.get filename = some fm ∧
        fm.Status = UploadStatusComplete ∧
        fm.Addresses =
          (planFragments reg filename (size.tdiv serverNumber) 0 0 none frames).map Prod.fst ∧
        fragmentsOf (uploadSession env reg files stores filename size
            (frames.map .message ++ rest)).stores filename 0 fm.Addresses =
          some ((planFragments reg filename (size.tdiv serverNumber) 0 0 none frames).map
            Prod.snd) := by
  have hinit : ApiServer.Session.Inv filename
      { totalBytes := 0, currentChunkSize := 0, grpcConn := none, bucketServer := none,
        grpcStream := none, fragmentNumber := -1, files := files, stores := stores } []
      none :=
    ⟨⟨rfl, rfl, rfl, by simp [addressesOf, hrecord]⟩, rfl⟩
  have hne : frames ≠ [] := by
    rintro rfl
    simp at hsum
    omega
  have loop := uploadLoop_plan env reg filename size (size.tdiv serverNumber) frames rest
    _ [] none hinit hnodes hframes (by simpa using hsum)
  simp only [uploadSession] at hok ⊢
  rcases hr : uploadLoop env reg filename size (size.tdiv serverNumber)
      { totalBytes := 0, currentChunkSize := 0, grpcConn := none, bucketServer := none,
        grpcStream := none, fragmentNumber := -1, files := files, stores := stores }
      (frames.map .message ++ rest) with ⟨s1, exit, evs⟩
  rw [hr] at hok loop ⊢
  simp only [List.nil_append] at hok loop ⊢
  by_cases hevs : allOk evs
  · obtain ⟨rfl, closed1, pending1, hinv, hplan⟩ := loop hevs
    cases pending1 with
    | none =>
      obtain ⟨-, rfl⟩ := hinv
      exact absurd hplan.symm (planFragments_ne_nil _ _ _ _ _ _ _ (Or.inl hne))
    | some pendingFragment =>
      obtain ⟨address, pending⟩ := pendingFragment
      obtain ⟨s2, evs2, s3, evs3, hclose, hfinal, hres⟩ :=
        uploadSession_finish env filename s1 closed1 address pending hinv
      simp only [hclose, if_true, hfinal, allOk_append] at hok ⊢
      refine ⟨by simp, ?_⟩
      obtain ⟨fm, h1, h2, h3, h4⟩ := hres (by simp [hok.1.2, hok.2])
      simp only [Option.toList_some] at hplan
      rw [hplan] at h3
      refine ⟨fm, h1, h2, h3, ?_⟩
      rw [h4, hplan]
  · exfalso
    apply hevs
    split at hok <;> split at hok <;> simp only [allOk_append] at hok <;>
      first
        | exact hok
        | exact hok.1
        | exact hok.1.1

/-! ## Uploads that meet no error

In a reliable environment, on nodes that hold no blob of the file, no call of an upload
fails: a session makes fewer than 12 fragments, so their indices are distinct and every
`Put` finds its key free. -/

@[simp] theorem reliable_storeFails (l : List (String × FileMeta)) :
    Env.reliable.storeFails l = false := rfl

@[simp] theorem reliable_uploadChunksFails (a : String) :
    Env.reliable.uploadChunksFails a = false := rfl

@[simp] theorem reliable_sendFails (a : String) (c : UploadChunk) :
    Env.reliable.sendFails a c = false := rfl

/-- A session closes fewer than 12 fragments. -/
theorem fragmentNumber_lt (fileSize chunkSize : Int) (s : Session) (hc : 0 ≤ chunkSize)
    (hsz : fileSize < 6 * chunkSize + 6) (h : s.Counted fileSize chunkSize) :
    s.fragmentNumber < 12 := by
  obtain ⟨h1, h2, h3, h4⟩ := h
  by_cases h0 : chunkSize = 0
  · subst h0; omega
  · have hc1 : 1 ≤ chunkSize := by omega
    by_contra hge
    have hn : 12 ≤ s.fragmentNumber := by omega
    nlinarith

theorem put_free (filename : String) (s : Session) (hclean : s.Clean filename)
    (hn : 0 ≤ s.fragmentNumber) (hlt : s.fragmentNumber < 12) (a : String) (p : Bytes) :
    ((s.stores a).Put filename (uint32 s.fragmentNumber) p).2 = true := by
  cases hb : (s.stores a).blobs filename (uint32 s.fragmentNumber) with
  | none => simp [Storage.Put, hb]
  | some d =>
    exfalso
    obtain ⟨j, hj, hk⟩ := hclean a _ d hb
    obtain ⟨n, hn'⟩ := Int.eq_ofNat_of_zero_le hn
    rw [hn'] at hj hk hlt
    have hjn : j < n := by exact_mod_cast hj
    have hn12 : n < 12 := by exact_mod_cast hlt
    rw [uint32_of_lt n (by omega), uint32_of_lt j (by omega)] at hk
    omega

theorem clean_after_put (filename : String) (s : Session) (hclean : s.Clean filename)
    (hn : 0 ≤ s.fragmentNumber) (a : String) (p : Bytes) (a' : String) (k : Nat) (d : Bytes)
    (h : ((s.stores.set a ((s.stores a).Put filename (uint32 s.fragmentNumber) p).1)
      a').blobs filename k = some d) :
    ∃ j : Nat, (j : Int) < s.fragmentNumber + 1 ∧ k = uint32 j := by
  obtain ⟨n, hn'⟩ := Int.eq_ofNat_of_zero_le hn
  have hold : ∀ d', (s.stores a').blobs filename k = some d' →
      ∃ j : Nat, (j : Int) < s.fragmentNumber + 1 ∧ k = uint32 j := by
    intro d' hd'
    obtain ⟨j, hj, hk⟩ := hclean a' k d' hd'
    exact ⟨j, by omega, hk⟩
  unfold Stores.set at h
  by_cases ha : a' = a
  · subst ha
    simp only [if_true, Storage.Put] at h
    cases hb : (s.stores a').blobs filename (uint32 s.fragmentNumber) with
    | some old =>
      rw [hb] at h
      exact hold d h
    | none =>
      rw [hb] at h
      simp only at h
      by_cases hk : k = uint32 s.fragmentNumber
      · exact ⟨n, by omega, by rw [hk, hn']⟩
      · simp only [hk, and_false, if_false] at h
        exact hold d h
  · simp only [ha, if_false] at h
    exact hold d h

/-- In a reliable environment a frame meets no error, and the invariants on the blobs
and on the counters are kept. -/
theorem uploadFrame_reliable (reg : registry.Registry) (filename : String)
    (fileSize chunkSize : Int) (b : Bytes) (s : Session) (closed : List (String × Bytes))
    (pendingFragment : Option (String × Bytes))
    (hs : s.Inv filename closed pendingFragment) (hclean : s.Clean filename)
    (hcount : s.Counted fileSize chunkSize) (hnodes : reg.servers ≠ []) (hb : b ≠ [])
    (hc : 0 ≤ chunkSize) (hsz : fileSize < 6 * chunkSize + 6)
    (hroom : s.totalBytes + b.length ≤ fileSize) :
    allOk (uploadFrame Env.reliable reg filename chunkSize b s).2.2 ∧
      (uploadFrame Env.reliable reg filename chunkSize b s).1.Clean filename ∧
      (uploadFrame Env.reliable reg filename chunkSize b s).1.Counted fileSize chunkSize := by
  have hpos : 0 < b.length := List.length_pos.mpr hb
  have hlt12 := fragmentNumber_lt fileSize chunkSize s hc hsz hcount
  obtain ⟨c1, c2, c3, c4⟩ := hcount
  obtain ⟨srv, hsrv⟩ := chooseServer_some reg filename (s.totalBytes + b.length) b hnodes
  cases pendingFragment with
  | none =>
    obtain ⟨⟨hbs, hconn, hf, ha⟩, -⟩ := hs
    rw [uploadFrame_initial_eq Env.reliable reg filename chunkSize b s srv hbs hconn hsrv
      rfl rfl rfl]
    refine ⟨by simp [Event.ok], ?_, ?_⟩
    · intro a k d hd
      obtain ⟨j, hj, hk⟩ := hclean a k d hd
      exact ⟨j, by simp only; omega, hk⟩
    · refine ⟨?_, ?_, ?_, ?_⟩ <;> simp only [hf] <;> omega
  | some pendingFragment =>
    obtain ⟨address, pending⟩ := pendingFragment
    obtain ⟨prev, conn, st, hbs, hprev, hconn, hst, hfin, haddr, hrecv, hlen, hrec, hfrag⟩ := hs
    have hn : 0 ≤ s.fragmentNumber := by rw [← hlen]; exact Int.natCast_nonneg _
    by_cases hbound : s.currentChunkSize + b.length ≥ chunkSize
    · rw [uploadFrame_boundary_eq Env.reliable reg filename chunkSize b s prev srv conn st
        pending hbs hconn hst hfin hrecv hbound hsrv (by simp [Registry.AddFragment]) rfl rfl
        rfl (put_free filename s hclean hn hlt12 _ _)]
      refine ⟨by simp [Event.ok], ?_, ?_⟩
      · intro a k d hd
        exact clean_after_put filename s hclean hn _ _ a k d hd
      · refine ⟨?_, ?_, ?_, ?_⟩ <;> simp only <;> [nlinarith; omega; omega; omega]
    · rw [uploadFrame_join_eq Env.reliable reg filename chunkSize b s prev st hbs hst hfin
        hbound rfl]
      refine ⟨by simp [Event.ok], hclean, ?_⟩
      refine ⟨?_, ?_, ?_, ?_⟩ <;> simp only <;> omega

/-- In a reliable environment the read loop over the announced frames meets no error. -/
theorem uploadLoop_reliable (reg : registry.Registry) (filename : String)
    (fileSize chunkSize : Int) (frames : List Bytes) (rest : List ReadResult) (s : Session)
    (closed : List (String × Bytes)) (pendingFragment : Option (String × Bytes))
    (hs : s.Inv filename closed pendingFragment) (hclean : s.Clean filename)
    (hcount : s.Counted fileSize chunkSize) (hnodes : reg.servers ≠ [])
    (hframes : ∀ b ∈ frames, b ≠ [])
    (hsum : s.totalBytes + ((frames.map List.length).sum : Nat) = fileSize)
    (hc : 0 ≤ chunkSize) (hsz : fileSize < 6 * chunkSize + 6) :
    allOk (uploadLoop Env.reliable reg filename fileSize chunkSize s
        (frames.map .message ++ rest)).2.2 ∧
      (uploadLoop Env.reliable reg filename fileSize chunkSize s
        (frames.map .message ++ rest)).1.Clean filename ∧
      (uploadLoop Env.reliable reg filename fileSize chunkSize s
        (frames.map .message ++ rest)).1.Counted fileSize chunkSize := by
  induction frames generalizing s closed pendingFragment with
  | nil =>
    have hge : s.totalBytes ≥ fileSize := by simp at hsum; omega
    simp only [List.map_nil, List.nil_append, uploadLoop_done _ _ _ _ _ _ _ hge]
    exact ⟨allOk_nil, hclean, hcount⟩
  | cons b frames ih =>
    have hb : b ≠ [] := hframes b (List.mem_cons_self _ _)
    have hpos : 0 < b.length := List.length_pos.mpr hb
    have hlen : ¬ b.length = 0 := by omega
    have hlt : ¬ s.totalBytes ≥ fileSize := by
      simp only [List.map_cons, List.sum_cons, Nat.cast_add] at hsum
      omega
    have hroom : s.totalBytes + b.length ≤ fileSize := by
      simp only [List.map_cons, List.sum_cons, Nat.cast_add] at hsum
      omega
    obtain ⟨r1, r2, r3⟩ := uploadFrame_reliable reg filename fileSize chunkSize b s closed
      pendingFragment hs hclean hcount hnodes hb hc hsz hroom
    obtain ⟨p1, p2, closed1, address1, pending1, hstream, -⟩ :=
      uploadFrame_plan Env.reliable reg filename chunkSize b frames s closed pendingFragment
        hs hnodes r1
    simp only [List.map_cons, List.cons_append, uploadLoop, hlt, hlen, if_false]
    rcases hr : uploadFrame Env.reliable reg filename chunkSize b s with ⟨s1, x, evs⟩
    rw [hr] at r1 r2 r3 p1 p2 hstream
    simp only at r1 r2 r3 p1 p2 hstream
    subst p1
    have hsum' : s1.totalBytes + ((frames.map List.length).sum : Nat) = fileSize := by
      simp only [List.map_cons, List.sum_cons, Nat.cast_add] at hsum
      omega
    obtain ⟨i1, i2, i3⟩ := ih s1 closed1 (some (address1, pending1)) hstream r2 r3
      (fun x hx => hframes x (List.mem_cons_of_mem _ hx)) hsum'
    simp only [allOk_cons, allOk_append]
    exact ⟨⟨by simp [Event.ok], r1, i1⟩, i2, i3⟩

/-- In a reliable environment the deferred functions of a session with an open fragment
meet no error when the key of the open fragment is free. -/
theorem uploadSession_finish_reliable (filename : String) (s : Session)
    (closed : List (String × Bytes)) (address : String) (pending : Bytes)
    (hs : s.Streaming filename closed address pending)
    (hfree : ∀ a p, ((s.stores a).Put filename (uint32 s.fragmentNumber) p).2 = true) :
    ∃ s2 evs2 s3 evs3, closeStream s = some (s2, evs2) ∧
      finalize Env.reliable filename UploadStatusComplete s2 = some (s3, evs3) ∧
      allOk (evs2 ++ evs3) := by
  obtain ⟨srv, conn, st, hb, hsrv, hc, hst, hfin, haddr, hrecv, hlen, hrec, hfrag⟩ := hs
  have hput : BucketServer.UploadChunks (s.stores st.address) st.sent =
      (s.stores st.address).Put filename (uint32 s.fragmentNumber) pending := by
    simp [BucketServer.UploadChunks, hrecv]
  have hset : ((s.files.AddFragment Env.reliable filename srv.Address).1.SetStatus Env.reliable
      filename UploadStatusComplete).2 = true := by
    have h := lookup_addEntry_self filename srv.Address s.files.Files
    cases hl : lookup filename s.files.Files with
    | none =>
      rw [hl] at h
      simp [Registry.SetStatus, Registry.AddFragment, h]
    | some fm =>
      rw [hl] at h
      simp [Registry.SetStatus, Registry.AddFragment, h]
  refine ⟨
      { s with stores := s.stores.set st.address
                 ((s.stores st.address).Put filename (uint32 s.fragmentNumber) pending).1,
               grpcStream := some { st with finished := true } },
      [.closeAndRecv st.address
        (some { Filename := filename, Fragment := uint32 s.fragmentNumber, Data := pending })
        true],
      { s with stores := s.stores.set st.address
                 ((s.stores st.address).Put filename (uint32 s.fragmentNumber) pending).1,
               grpcStream := some { st with finished := true },
               files := ((s.files.AddFragment Env.reliable filename srv.Address).1.SetStatus
                 Env.reliable filename UploadStatusComplete).1 },
      [.addFragment filename srv.Address true,
        .setStatus filename UploadStatusComplete true],
      ?_, ?_, ?_⟩
  · simp [closeStream, hc, hst, hfin, hput, hrecv, hfree]
  · have hadd : (s.files.AddFragment Env.reliable filename srv.Address).2 = true := by
      simp [Registry.AddFragment]
    simp [finalize, hb, hadd, hset]
  · simp [Event.ok]

/-- In a reliable environment, with at least one registered node and no blob of the file
on any node, no call of an upload session over non-empty frames that sum to the declared
size returns an error. -/
theorem uploadSession_reliable (reg : registry.Registry) (files : fragment.Registry)
    (stores : Stores) (filename : String) (size : Int) (frames : List Bytes)
    (rest : List ReadResult)
    (hrecord : files.get filename = none) (hnodes : reg.servers ≠ [])
    (hsize : 1 ≤ size) (hframes : ∀ b ∈ frames, b ≠ [])
    (hsum : (((frames.map List.length).sum : Nat) : Int) = size)
    (hfree : ∀ a k, (stores a).blobs filename k = none) :
    allOk (uploadSession Env.reliable reg files stores filename size
      (frames.map .message ++ rest)).trace := by
  have hc : 0 ≤ size.tdiv serverNumber := by
    rw [Int.tdiv_eq_ediv (by omega) (by decide)]
    simp only [serverNumber]
    omega
  have hsz : size < 6 * size.tdiv serverNumber + 6 := by
    rw [Int.tdiv_eq_ediv (by omega) (by decide)]
    simp only [serverNumber]
    omega
  have hinit : ApiServer.Session.Inv filename
      { totalBytes := 0, currentChunkSize := 0, grpcConn := none, bucketServer := none,
        grpcStream := none, fragmentNumber := -1, files := files, stores := stores } []
      none :=
    ⟨⟨rfl, rfl, rfl, by simp [addressesOf, hrecord]⟩, rfl⟩
  have hclean : ApiServer.Session.Clean filename
      { totalBytes := 0, currentChunkSize := 0, grpcConn := none, bucketServer := none,
        grpcStream := none, fragmentNumber := -1, files := files, stores := stores } := by
    intro a k d hd
    simp [hfree] at hd
  have hcount : ApiServer.Session.Counted size (size.tdiv serverNumber)
      { totalBytes := 0, currentChunkSize := 0, grpcConn := none, bucketServer := none,
        grpcStream := none, fragmentNumber := -1, files := files, stores := stores } := by
    refine ⟨?_, ?_, ?_, ?_⟩ <;> simp only <;> omega
  have hne : frames ≠ [] := by
    rintro rfl
    simp at hsum
    omega
  obtain ⟨l1, l2, l3⟩ := uploadLoop_reliable reg filename size (size.tdiv serverNumber)
    frames rest _ [] none hinit hclean hcount hnodes hframes (by simpa using hsum) hc hsz
  have loop := uploadLoop_plan Env.reliable reg filename size (size.tdiv serverNumber) frames
    rest _ [] none hinit hnodes hframes (by simpa using hsum) l1
  simp only [uploadSession]
  rcases hr : uploadLoop Env.reliable reg filename size (size.tdiv serverNumber)
      { totalBytes := 0, currentChunkSize := 0, grpcConn := none, bucketServer := none,
        grpcStream := none, fragmentNumber := -1, files := files, stores := stores }
      (frames.map .message ++ rest) with ⟨s1, exit, evs⟩
  rw [hr] at l1 l2 l3 loop ⊢
  simp only [List.nil_append] at l1 l2 l3 loop ⊢
  obtain ⟨rfl, closed1, pending1, hinv, hplan⟩ := loop
  cases pending1 with
  | none =>
    obtain ⟨-, rfl⟩ := hinv
    exact absurd hplan.symm (planFragments_ne_nil _ _ _ _ _ _ _ (Or.inl hne))
  | some pendingFragment =>
    obtain ⟨address, pending⟩ := pendingFragment
    have hn : 0 ≤ s1.fragmentNumber := by
      obtain ⟨_, _, _, _, _, _, _, _, _, _, hlen, _, _⟩ := hinv
      rw [← hlen]; exact Int.natCast_nonneg _
    have hlt := fragmentNumber_lt size (size.tdiv serverNumber) s1 hc hsz l3
    obtain ⟨s2, evs2, s3, evs3, hclose, hfinal, hok⟩ :=
      uploadSession_finish_reliable filename s1 closed1 address pending hinv
        (put_free filename s1 l2 hn hlt)
    simp only [hclose, if_true, hfinal, allOk_append] at hok ⊢
    exact ⟨⟨l1, hok.1⟩, hok.2⟩

/-- In a reliable environment, for a non-empty filename without record, at least one
registered node and no blob of the file on any node, no call of the upload of non-empty
frames that sum to the declared size returns an error. -/
theorem upload_reliable_no_error (reg : registry.Registry) (files : fragment.Registry)
    (stores : Stores) (filename : String) (size : Int) (frames : List Bytes)
    (rest : List ReadResult)
    (hname : filename ≠ "") (hrecord : files.get filename = none)
    (hnodes : reg.servers ≠ []) (hsize : 1 ≤ size) (hframes : ∀ b ∈ frames, b ≠ [])
    (hsum : (((frames.map List.length).sum : Nat) : Int) = size)
    (hfree : ∀ a k, (stores a).blobs filename k = none) :
    ∀ e ∈ (upload Env.reliable reg files stores filename (some size)
      (frames.map .message ++ rest)).trace, e.ok = true := by
  have hsize0 : size ≠ 0 := by omega
  have hu : upload Env.reliable reg files stores filename (some size)
      (frames.map .message ++ rest) =
      uploadSession Env.reliable reg files stores filename size
        (frames.map .message ++ rest) := by
    simp [upload, hname, readUploadFileSize, hsize0]
  rw [hu]
  exact uploadSession_reliable reg files stores filename size frames rest hrecord hnodes
    hsize hframes hsum hfree

/-- Round trip without proviso: in a reliable environment, for a non-empty filename
without record, at least one registered node and no blob of the file on any node, the
upload of non-empty frames that sum to the declared size returns, and the download
relays frames whose concatenation is the concatenation of the uploaded frames. -/
theorem upload_download_roundtrip_reliable (reg : registry.Registry)
    (files : fragment.Registry) (stores : Stores) (filename : String) (size : Int)
    (frames : List Bytes) (rest : List ReadResult)
    (hname : filename ≠ "") (hrecord : files.get filename = none)
    (hnodes : reg.servers ≠ []) (hsize : 1 ≤ size) (hframes : ∀ b ∈ frames, b ≠ [])
    (hsum : (((frames.map List.length).sum : Nat) : Int) = size)
    (hfree : ∀ a k, (stores a).blobs filename k = none) :
    (upload Env.reliable reg files stores filename (some size)
        (frames.map .message ++ rest)).outcome = .returned ∧
      (relayed (download Env.reliable
        (upload Env.reliable reg files stores filename (some size)
          (frames.map .message ++ rest)).files
        (upload Env.reliable reg files stores filename (some size)
          (frames.map .message ++ rest)).stores
        filename).trace).flatten = frames.flatten := by
  have hsize0 : size ≠ 0 := by omega
  have hu : upload Env.reliable reg files stores filename (some size)
      (frames.map .message ++ rest) =
      uploadSession Env.reliable reg files stores filename size
        (frames.map .message ++ rest) := by
    simp [upload, hname, readUploadFileSize, hsize0]
  rw [hu]
  obtain ⟨hout, fm, hget, hstatus, -, hfrag⟩ :=
    uploadSession_plan Env.reliable reg files stores filename size frames rest hrecord hnodes
      hsize hframes hsum
      (uploadSession_reliable reg files stores filename size frames rest hrecord hnodes
        hsize hframes hsum hfree)
  obtain ⟨-, d2⟩ := download_reliable _ _ filename fm _ hname hget hstatus hfrag
  refine ⟨hout, d2.trans ?_⟩
  simpa using planFragments_flatten reg filename (size.tdiv serverNumber) 0 0 none frames

/-! ## Sessions that never choose a node -/

theorem uploadLoop_no_nodes (env : Env) (filename : String) (fileSize chunkSize : Int)
    (s : Session) (inbound : List ReadResult) (hs : s.fresh) :
    (uploadLoop env { servers := [] } filename fileSize chunkSize s inbound).1.fresh ∧
      (uploadLoop env { servers := [] } filename fileSize chunkSize s inbound).1.files = s.files ∧
      (uploadLoop env { servers := [] } filename fileSize chunkSize s inbound).1.stores
        = s.stores := by
  obtain ⟨hb, hc⟩ := hs
  cases inbound with
  | nil =>
    by_cases h : s.totalBytes ≥ fileSize <;> simp [uploadLoop, h, Session.fresh, hb, hc]
  | cons r rest =>
    cases r with
    | failure =>
      by_cases h : s.totalBytes ≥ fileSize <;> simp [uploadLoop, h, Session.fresh, hb, hc]
    | message b =>
      by_cases h : s.totalBytes ≥ fileSize
      · simp [uploadLoop, h, Session.fresh, hb, hc]
      · by_cases hl : b.length = 0
        · simp [uploadLoop, h, hl, Session.fresh, hb, hc]
        · simp [uploadLoop, h, hl, uploadFrame, openFragment, closeStream, chooseServer,
            registry.Registry.GetServer, Session.fresh, hb, hc]

/-- A size announcement of 0 is refused before anything else happens. -/
theorem upload_zero_size_rejected (env : Env) (reg : registry.Registry)
    (files : fragment.Registry) (stores : Stores) (filename : String)
    (inbound : List ReadResult) (hname : filename ≠ "") (hup : env.upgradeFails = false) :
    (upload env reg files stores filename (some 0) inbound).outcome = .rejected ∧
      (upload env reg files stores filename (some 0) inbound).trace = [] ∧
      (upload env reg files stores filename (some 0) inbound).files = files := by
  simp [upload, hname, hup, readUploadFileSize]

/-! ## The sweeper -/

theorem deleteRequests_append (filename : String) (xs ys : List Event) :
    deleteRequests filename (xs ++ ys) =
      deleteRequests filename xs ++ deleteRequests filename ys := by
  induction xs with
  | nil => rfl
  | cons e rest ih =>
    cases e <;> simp [deleteRequests, ih]
    split <;> simp

/-- The helper reports its own call, with the address, the filename and the index of the
request. -/
theorem deleteFragment_events (env : Env) (stores : Stores) (filename address : String)
    (i : Int) :
    (deleteFragment env stores filename address i).2.2 =
      [.deleteFragment address filename (uint32 i)
        (deleteFragment env stores filename address i).2.1] := by
  simp only [deleteFragment]
  split
  · rfl
  · split <;> rfl

/-- The helper succeeds exactly when the environment fails neither the connection nor
the call and the node holds the blob. -/
theorem deleteFragment_ok_iff (env : Env) (stores : Stores) (filename address : String)
    (i : Int) :
    (deleteFragment env stores filename address i).2.1 = true ↔
      (env.newClientFails address = false ∧
        env.deleteFragmentFails address filename (uint32 i) = false ∧
        (stores address).Get filename (uint32 i) ≠ none) := by
  simp only [deleteFragment, BucketServer.DeleteFragment, Storage.Delete, Storage.Get]
  by_cases h1 : env.newClientFails address = true
  · simp [h1]
  · by_cases h2 : env.deleteFragmentFails address filename (uint32 i) = true
    · simp [h1, h2]
    · cases hb : (stores address).blobs filename (uint32 i) <;> simp [h1, h2, hb]

/-- The stores after the helper: a successful call has removed the blob of the request
from the store of the node, and nothing else changes. -/
theorem deleteFragment_blobs (env : Env) (stores : Stores) (filename address : String)
    (i : Int) (a f : String) (k : Nat) :
    ((deleteFragment env stores filename address i).1 a).Get f k =
      if (deleteFragment env stores filename address i).2.1 = true ∧
          a = address ∧ f = filename ∧ k = uint32 i then none
      else (stores a).Get f k := by
  simp only [deleteFragment, BucketServer.DeleteFragment, Storage.Delete, Storage.Get]
  by_cases h1 : env.newClientFails address = true
  · simp [h1]
  · by_cases h2 : env.deleteFragmentFails address filename (uint32 i) = true
    · simp [h1, h2]
    · simp only [Bool.not_eq_true] at h1 h2
      cases hb : (stores address).blobs filename (uint32 i) with
      | none =>
        simp only [h1, h2, hb, Stores.set]
        by_cases ha : a = address
        · subst ha; simp [Stores.set]
        · simp [Stores.set, ha]
      | some data =>
        simp only [h1, h2, hb, Stores.set]
        by_cases ha : a = address
        · subst ha; simp [Stores.set]
        · simp [Stores.set, ha]

/-- The requests of the delete loop, one step unfolded. -/
theorem deleteFragments_cons (env : Env) (filename : String) (stores : Stores) (i : Nat)
    (address : String) (rest : List String) :
    deleteFragments env filename stores i (address :: rest) =
      if (deleteFragment env stores filename address i).2.1 = true then
        ((deleteFragments env filename (deleteFragment env stores filename address i).1
            (i + 1) rest).1,
          (deleteFragment env stores filename address i).2.2 ++
            (deleteFragments env filename (deleteFragment env stores filename address i).1
              (i + 1) rest).2)
      else
        ((deleteFragment env stores filename address i).1,
          (deleteFragment env stores filename address i).2.2) := by
  rcases h : deleteFragment env stores filename address i with ⟨stores1, ok, evs⟩
  cases ok <;> simp [deleteFragments, h]

theorem deleteRequests_deleteFragments_of_ne (env : Env) {filename other : String}
    (h : other ≠ filename) (stores : Stores) (i : Nat) (addresses : List String) :
    deleteRequests filename (deleteFragments env other stores i addresses).2 = [] := by
  induction addresses generalizing stores i with
  | nil => rfl
  | cons a rest ih =>
    rw [deleteFragments_cons]
    split
    · simp [deleteRequests_append, deleteFragment_events, deleteRequests, h, ih]
    · simp [deleteFragment_events, deleteRequests, h]

/-- The requests of the delete loop are those of the helper: the call for the first
address, followed, when it succeeds, by the requests for the other addresses. -/
theorem deleteRequests_deleteFragments_cons (env : Env) (filename : String)
    (stores : Stores) (i : Nat) (address : String) (rest : List String) :
    deleteRequests filename (deleteFragments env filename stores i (address :: rest)).2 =
      (address, uint32 i, (deleteFragment env stores filename address i).2.1) ::
        if (deleteFragment env stores filename address i).2.1 = true then
          deleteRequests filename
            (deleteFragments env filename (deleteFragment env stores filename address i).1
              (i + 1) rest).2
        else [] := by
  rw [deleteFragments_cons]
  split
  · simp [deleteRequests_append, deleteFragment_events, deleteRequests]
  · simp [deleteFragment_events, deleteRequests]

/-- Shape of the requests of the delete loop: they go to the addresses in index order,
none follows a failed one, and all addresses are reached when none fails. -/
theorem deleteFragments_requests (env : Env) (filename : String) (stores : Stores)
    (i : Nat) (addresses : List String) :
    let ds := deleteRequests filename (deleteFragments env filename stores i addresses).2
    ds.map (fun d => (d.1, d.2.1)) =
        ((addresses.enumFrom i).take ds.length).map (fun p => (p.2, uint32 p.1)) ∧
      (∀ d ∈ ds.dropLast, d.2.2 = true) ∧
      ((∀ d ∈ ds, d.2.2 = true) → ds.length = addresses.length) := by
  induction addresses generalizing stores i with
  | nil => simp [deleteFragments, deleteRequests]
  | cons a rest ih =>
    simp only [deleteRequests_deleteFragments_cons]
    by_cases hok : (deleteFragment env stores filename a i).2.1 = true
    · have ih' := ih (deleteFragment env stores filename a i).1 (i + 1)
      simp only [hok, if_true] at ih' ⊢
      obtain ⟨h1, h2, h3⟩ := ih'
      refine ⟨?_, ?_, ?_⟩
      · simp [List.enumFrom, h1]
      · intro d hd
        cases hds : deleteRequests filename
            (deleteFragments env filename (deleteFragment env stores filename a i).1
              (i + 1) rest).2 with
        | nil => simp [hds] at hd
        | cons x xs =>
          rw [hds] at hd h2
          simp only [List.dropLast_cons₂, List.mem_cons] at hd
          rcases hd with rfl | hd
          · rfl
          · exact h2 d hd
      · intro hall
        simp only [List.length_cons, add_left_inj]
        exact h3 (fun d hd => hall d (List.mem_cons_of_mem _ hd))
    · simp only [hok]
      simp [List.enumFrom, hok]

/-- What the delete loop does on the nodes. Every request carries the answer of its node:
it succeeds exactly when the environment fails neither the connection nor the call and
the node holds the blob. After the loop the blobs of the file are the ones before
without those of the requests that succeeded, and the blobs of other files are as
before. -/
theorem deleteFragments_effect (env : Env) (filename : String) (stores : Stores)
    (i : Nat) (addresses : List String) :
    let ds := deleteRequests filename (deleteFragments env filename stores i addresses).2
    (∀ d ∈ ds, i ≤ d.2.1 ∨ 2 ^ 32 < i + addresses.length) ∧
      (i + addresses.length ≤ 2 ^ 32 → ∀ d ∈ ds,
        (d.2.2 = true ↔
          (env.newClientFails d.1 = false ∧ env.deleteFragmentFails d.1 filename d.2.1 = false ∧
            (stores d.1).Get filename d.2.1 ≠ none))) ∧
      (∀ a k, ((deleteFragments env filename stores i addresses).1 a).Get filename k =
        if (a, k, true) ∈ ds then none else (stores a).Get filename k) ∧
      (∀ a f k, f ≠ filename →
        ((deleteFragments env filename stores i addresses).1 a).Get f k =
          (stores a).Get f k) := by
  induction addresses generalizing stores i with
  | nil => simp [deleteFragments, deleteRequests]
  | cons address rest ih =>
    obtain ⟨r1, r2, r3, r4⟩ := ih (deleteFragment env stores filename address i).1 (i + 1)
    simp only [deleteRequests_deleteFragments_cons]
    rw [deleteFragments_cons]
    by_cases hok : (deleteFragment env stores filename address i).2.1 = true
    · simp only [hok, if_true] at r1 r2 r3 r4 ⊢
      refine ⟨?_, ?_, ?_, ?_⟩
      · intro d hd
        by_cases hlen : 2 ^ 32 < i + (address :: rest).length
        · exact Or.inr hlen
        · left
          simp only [List.length_cons] at hlen
          rcases List.mem_cons.mp hd with rfl | hd
          · simp only
            rw [uint32_of_lt i (by omega)]
          · rcases r1 d hd with h | h
            · omega
            · omega
      · intro hlen d hd
        simp only [List.length_cons] at hlen
        rcases List.mem_cons.mp hd with rfl | hd
        · have h := deleteFragment_ok_iff env stores filename address i
          simpa [hok] using h
        · rw [r2 (by omega) d hd, deleteFragment_blobs]
          have hk : d.2.1 ≠ uint32 i := by
            rw [uint32_of_lt i (by omega)]
            rcases r1 d hd with h | h
            · omega
            · omega
          simp [hk]
      · intro a k
        rw [r3, deleteFragment_blobs]
        by_cases hmem : (a, k, true) ∈ deleteRequests filename
            (deleteFragments env filename (deleteFragment env stores filename address i).1
              (i + 1) rest).2
        · simp [hmem]
        · by_cases hfirst : a = address ∧ k = uint32 i
          · simp [hmem, hfirst, hok]
          · have hne : ¬ (a, k, true) = (address, uint32 i, true) := by
              intro e
              cases e
              exact hfirst ⟨rfl, rfl⟩
            simp only [hmem, if_false, List.mem_cons, hne, false_or, hok, true_and]
            simp only [hfirst, if_false]
      · intro a f k hf
        rw [r4 a f k hf, deleteFragment_blobs]
        simp [hf]
    · simp only [Bool.not_eq_true] at hok
      simp only [hok, Bool.false_eq_true, if_false]
      refine ⟨?_, ?_, ?_, ?_⟩
      · intro d hd
        by_cases hlen : 2 ^ 32 < i + (address :: rest).length
        · exact Or.inr hlen
        · left
          simp only [List.length_cons] at hlen
          simp only [List.mem_singleton] at hd
          subst hd
          simp only
          rw [uint32_of_lt i (by omega)]
      · intro hlen d hd
        simp only [List.mem_singleton] at hd
        subst hd
        have h := deleteFragment_ok_iff env stores filename address i
        rw [hok] at h
        exact h
      · intro a k
        rw [deleteFragment_blobs]
        simp [hok]
      · intro a f k hf
        rw [deleteFragment_blobs]
        simp [hf]

theorem mem_of_lookup_eq_some {filename : String} {fm : FileMeta}
    {l : List (String × FileMeta)} (h : lookup filename l = some fm) : (filename, fm) ∈ l := by
  induction l with
  | nil => simp [lookup] at h
  | cons e rest ih =>
    obtain ⟨k, v⟩ := e
    by_cases hk : k = filename
    · simp only [lookup, hk, if_true, Option.some.injEq] at h
      simp [hk, h]
    · simp only [lookup, hk, if_false] at h
      exact List.mem_cons_of_mem _ (ih h)

theorem lookup_eq_some_of_mem {filename : String} {fm : FileMeta}
    {l : List (String × FileMeta)} (hn : (l.map Prod.fst).Nodup) (h : (filename, fm) ∈ l) :
    lookup filename l = some fm := by
  induction l with
  | nil => simp at h
  | cons e rest ih =>
    obtain ⟨k, v⟩ := e
    simp only [List.map_cons, List.nodup_cons, List.mem_map, not_exists, not_and] at hn
    simp only [List.mem_cons, Prod.mk.injEq] at h
    rcases h with ⟨rfl, rfl⟩ | h
    · simp [lookup]
    · have hk : ¬ k = filename := fun e => hn.1 (filename, fm) h e.symm
      simp only [lookup, hk, if_false]
      exact ih hn.2 h

/-- The sweep never adds or changes a record: a record it leaves is the one it found. -/
theorem sweep_get_of_absent (env : Env) (filename : String) (files : fragment.Registry)
    (stores : Stores) (entries : List (String × FileMeta)) (h : files.get filename = none) :
    (sweep env files stores entries).1.get filename = none := by
  induction entries generalizing files stores with
  | nil => simpa [sweep] using h
  | cons e rest ih =>
    obtain ⟨k, v⟩ := e
    simp only [sweep]
    split
    · exact ih files stores h
    · apply ih
      simp only [Registry.get, Registry.Delete] at h ⊢
      by_cases hk : filename = k
      · subst hk; exact lookup_erase_self _ _
      · rw [lookup_erase_of_ne hk]; exact h

/-- Entries under other keys, and entries that are not `Failed`, leave a record alone. -/
theorem sweep_untouched (env : Env) (filename : String) (files : fragment.Registry)
    (stores : Stores) (entries : List (String × FileMeta))
    (h : ∀ v, (filename, v) ∈ entries → v.Status ≠ UploadStatusFailed) :
    (sweep env files stores entries).1.get filename = files.get filename ∧
      deleteRequests filename (sweep env files stores entries).2.2 = [] := by
  induction entries generalizing files stores with
  | nil => simp [sweep, deleteRequests]
  | cons e rest ih =>
    obtain ⟨k, v⟩ := e
    have hrest : ∀ v, (filename, v) ∈ rest → v.Status ≠ UploadStatusFailed :=
      fun v hv => h v (List.mem_cons_of_mem _ hv)
    simp only [sweep]
    split
    · exact ih files stores hrest
    · rename_i hfailed
      have hk : filename ≠ k := by
        rintro rfl
        exact hfailed (h v (List.mem_cons_self _ _))
      obtain ⟨ih1, ih2⟩ := ih (files.Delete env k).1
        (deleteFragments env k stores 0 v.Addresses).1 hrest
      constructor
      · rw [ih1]
        simp only [Registry.get, Registry.Delete]
        exact lookup_erase_of_ne hk _
      · have hk' : ¬ k = filename := fun e => hk e.symm
        simp [deleteRequests_append, deleteRequests,
          deleteRequests_deleteFragments_of_ne env hk', ih2]

/-- Entries under other keys, and entries that are not `Failed`, leave the blobs of a
file alone. -/
theorem sweep_blobs_untouched (env : Env) (filename : String) (files : fragment.Registry)
    (stores : Stores) (entries : List (String × FileMeta))
    (h : ∀ v, (filename, v) ∈ entries → v.Status ≠ UploadStatusFailed) (a : String)
    (k : Nat) :
    ((sweep env files stores entries).2.1 a).Get filename k = (stores a).Get filename k := by
  induction entries generalizing files stores with
  | nil => simp [sweep]
  | cons e rest ih =>
    obtain ⟨name, v⟩ := e
    have hrest : ∀ v, (filename, v) ∈ rest → v.Status ≠ UploadStatusFailed :=
      fun v hv => h v (List.mem_cons_of_mem _ hv)
    simp only [sweep]
    split
    · exact ih files stores hrest
    · rename_i hfailed
      have hk : filename ≠ name := by
        rintro rfl
        exact hfailed (h v (List.mem_cons_self _ _))
      rw [ih (files.Delete env name).1 (deleteFragments env name stores 0 v.Addresses).1 hrest]
      exact (deleteFragments_effect env name stores 0 v.Addresses).2.2.2 a filename k hk

/-- On the `Failed` entry of a file the sweep runs the delete loop once and drops the
record; the loop finds the blobs of the file as they were before the sweep and nothing
else touches them. -/
theorem sweep_failed (env : Env) (filename : String) (fm : FileMeta)
    (files : fragment.Registry) (stores : Stores) (entries : List (String × FileMeta))
    (hn : (entries.map Prod.fst).Nodup) (hmem : (filename, fm) ∈ entries)
    (hfailed : fm.Status = UploadStatusFailed) :
    (sweep env files stores entries).1.get filename = none ∧
      ∃ stores1, deleteRequests filename (sweep env files stores entries).2.2 =
          deleteRequests filename (deleteFragments env filename stores1 0 fm.Addresses).2 ∧
        (∀ a k, (stores1 a).Get filename k = (stores a).Get filename k) ∧
        (∀ a k, ((sweep env files stores entries).2.1 a).Get filename k =
          ((deleteFragments env filename stores1 0 fm.Addresses).1 a).Get filename k) := by
  induction entries generalizing files stores with
  | nil => simp at hmem
  | cons e rest ih =>
    obtain ⟨k, v⟩ := e
    simp only [List.map_cons, List.nodup_cons, List.mem_map, not_exists, not_and] at hn
    simp only [List.mem_cons, Prod.mk.injEq] at hmem
    rcases hmem with ⟨rfl, rfl⟩ | hmem
    · have hnot : ∀ v, (filename, v) ∈ rest → v.Status ≠ UploadStatusFailed :=
        fun v hv => absurd rfl (hn.1 (filename, v) hv)
      have hs : ¬ fm.Status ≠ UploadStatusFailed := not_not.mpr hfailed
      simp only [sweep, hs, if_false]
      obtain ⟨u1, u2⟩ := sweep_untouched env filename (files.Delete env filename).1
        (deleteFragments env filename stores 0 fm.Addresses).1 rest hnot
      constructor
      · rw [u1]
        simp only [Registry.get, Registry.Delete]
        exact lookup_erase_self _ _
      · refine ⟨stores, by simp [deleteRequests_append, deleteRequests, u2],
          fun _ _ => rfl, fun a k => ?_⟩
        exact sweep_blobs_untouched env filename (files.Delete env filename).1
          (deleteFragments env filename stores 0 fm.Addresses).1 rest hnot a k
    · have hk : ¬ k = filename := fun e => hn.1 (filename, fm) hmem e.symm
      simp only [sweep]
      split
      · exact ih files stores hn.2 hmem
      · obtain ⟨i1, s1, i2, i3, i4⟩ := ih (files.Delete env k).1
          (deleteFragments env k stores 0 v.Addresses).1 hn.2 hmem
        refine ⟨i1, s1, ?_, fun a j => ?_, i4⟩
        · simp [deleteRequests_append, deleteRequests,
            deleteRequests_deleteFragments_of_ne env hk, i2]
        · rw [i3]
          exact (deleteFragments_effect env k stores 0 v.Addresses).2.2.2 a filename j
            (fun e => hk e.symm)

/-! ## Registration and selection of nodes -/

theorem mem_nodeList (reg : registry.Registry) (address : String) :
    reg.servers.any (fun server => decide (server.Address = address)) = true ↔
      address ∈ nodeList reg := by
  simp only [nodeList, List.any_eq_true, decide_eq_true_eq, List.mem_map]

theorem registerBucket_eq (reg : registry.Registry) (address : String) :
    RegisterBucket reg address =
      if address = "" then (reg, some .noAddress)
      else if address ∈ nodeList reg then (reg, some .alreadyRegistered)
      else ({ servers := reg.servers ++ [{ Address := address }] }, none) := by
  simp only [RegisterBucket, registry.Registry.Register]
  by_cases h1 : address = ""
  · simp [h1]
  · by_cases h2 : address ∈ nodeList reg
    · simp [h1, h2, (mem_nodeList reg address).mpr h2]
    · have h3 : ¬ reg.servers.any (fun server => decide (server.Address = address)) = true :=
        fun h => h2 ((mem_nodeList reg address).mp h)
      simp only [h1, h2, if_false]
      simp only [Bool.not_eq_true] at h3
      simp [h3]

/-- Registrations from the empty registry keep the addresses non-empty and distinct. -/
theorem registerBucket_invariant (reg : registry.Registry) (address : String)
    (hne : ∀ a ∈ nodeList reg, a ≠ "") (hnodup : (nodeList reg).Nodup) :
    (∀ a ∈ nodeList (RegisterBucket reg address).1, a ≠ "") ∧
      (nodeList (RegisterBucket reg address).1).Nodup := by
  rw [registerBucket_eq]
  by_cases h1 : address = ""
  · simp only [h1, if_true]
    exact ⟨hne, hnodup⟩
  · by_cases h2 : address ∈ nodeList reg
    · simp only [h1, h2, if_true, if_false]
      exact ⟨hne, hnodup⟩
    · simp only [h1, h2, if_false]
      simp only [nodeList, List.map_append, List.map_cons, List.map_nil] at hne hnodup h2 ⊢
      refine ⟨?_, ?_⟩
      · intro a ha
        rcases List.mem_append.mp ha with ha | ha
        · exact hne a ha
        · simp only [List.mem_singleton] at ha
          rw [ha]
          exact h1
      · rw [List.nodup_append]
        refine ⟨hnodup, List.nodup_singleton _, ?_⟩
        intro a ha hb
        simp only [List.mem_singleton] at hb
        rw [hb] at ha
        exact h2 ha

theorem uint64_of_lt (n : Nat) (h : n < 2 ^ 64) : uint64 n = n := by
  simp only [uint64]
  have h1 : (n : Int) % 2 ^ 64 = n := Int.emod_eq_of_lt (by omega) (by exact_mod_cast h)
  rw [h1]
  simp

/-- The buffer `PutUint64` fills is the little-endian encoding on 8 bytes. -/
theorem putUint64LE_eq (v : Nat) : putUint64LE v = littleEndian 8 v := by
  simp only [putUint64LE, littleEndian, List.range, List.range.loop, List.map]
  simp only [Nat.div_div_eq_div_mul]
  norm_num

theorem littleEndian_length (width v : Nat) : (littleEndian width v).length = width := by
  induction width generalizing v with
  | zero => rfl
  | succ n ih => simp [littleEndian, ih]

theorem leValue_littleEndian (width v : Nat) :
    leValue (littleEndian width v) = v % 256 ^ width := by
  induction width generalizing v with
  | zero => simp [littleEndian, leValue, Nat.mod_one]
  | succ n ih =>
    simp only [littleEndian, leValue, ih]
    have : (UInt8.ofNat (v % 256)).toNat = v % 256 := by
      simp [UInt8.ofNat, UInt8.toNat, Fin.ofNat]
    rw [this, pow_succ, Nat.mul_comm (256 ^ n) 256, Nat.mod_mul]

/-- The three calls of `Write` on the hash of `chooseServer` hash the selection key. -/
theorem fnvWrite_selectionKey (filename : String) (count : Nat) (payload : Bytes) :
    fnvWrite (fnvWrite (fnvWrite fnvOffset64 (stringBytes filename)) (putUint64LE count))
        payload =
      fnv1 (selectionKey filename count payload) := by
  simp only [fnvWrite, fnv1, selectionKey, putUint64LE_eq, List.foldl_append]

set_option maxRecDepth 100000 in
/-- The values of `fnv1` on the test strings of the package `hash/fnv`: the empty string,
`a`, `ab` and `abc`. -/
theorem fnv1_test_vectors :
    fnv1 (stringBytes "") = 0xcbf29ce484222325 ∧
      fnv1 (stringBytes "a") = 0xaf63bd4c8601b7be ∧
      fnv1 (stringBytes "ab") = 0x08326707b4eb37b8 ∧
      fnv1 (stringBytes "abc") = 0xd8dcca186bafadcb := by
  decide

theorem chooseServer_eq (reg : registry.Registry) (filename : String) (totalBytes : Int)
    (payload : Bytes) (hlo : 0 ≤ totalBytes) (hhi : totalBytes < 2 ^ 64)
    (hn : 1 ≤ reg.servers.length) :
    chooseServer reg filename totalBytes payload =
      some (reg.servers.get
        ⟨fnv1 (selectionKey filename totalBytes.toNat payload) % reg.servers.length,
          Nat.mod_lt _ hn⟩) := by
  have hne : reg.servers.length ≠ 0 := by omega
  have hnat : totalBytes.toNat < 2 ^ 64 := by omega
  have hu : uint64 totalBytes = totalBytes.toNat := by
    have h := uint64_of_lt _ hnat
    rwa [Int.toNat_of_nonneg hlo] at h
  simp only [chooseServer, registry.Registry.GetServer, hne, if_false, hu,
    fnvWrite_selectionKey]
  exact List.getElem?_eq_getElem (Nat.mod_lt _ hn)

theorem chooseServer_no_nodes (reg : registry.Registry) (filename : String)
    (totalBytes : Int) (payload : Bytes) (h : reg.servers = []) :
    chooseServer reg filename totalBytes payload = none := by
  simp [chooseServer, registry.Registry.GetServer, h]

theorem closeStream_bucketServer (s s2 : Session) (evs : List Event)
    (h : closeStream s = some (s2, evs)) :
    s2.bucketServer = s.bucketServer ∧ ∀ chosen, Event.getServer chosen ∉ evs := by
  simp only [closeStream] at h
  split at h
  · cases h; simp
  · split at h
    · cases h
    · split at h <;> cases h <;> simp

theorem sendChunk_bucketServer (env : Env) (filename : String) (b : Bytes) (s : Session) :
    (sendChunk env filename b s).1.bucketServer = s.bucketServer ∧
      ∀ chosen, Event.getServer chosen ∉ (sendChunk env filename b s).2.2 := by
  simp only [sendChunk]
  split
  · simp
  · split <;> simp

theorem openFragment_getServer (env : Env) (reg : registry.Registry) (filename : String)
    (b : Bytes) (s : Session) :
    (∀ chosen, Event.getServer chosen ∈ (openFragment env reg filename b s).2.2 →
        chosen = chooseServer reg filename s.totalBytes b) ∧
      ((∀ srv, s.bucketServer = some srv →
          (s.files.AddFragment env filename srv.Address).2 = true) →
        Event.getServer (chooseServer reg filename s.totalBytes b) ∈
            (openFragment env reg filename b s).2.2 ∧
          (openFragment env reg filename b s).1.bucketServer =
            chooseServer reg filename s.totalBytes b) := by
  have key : ∀ (files : fragment.Registry) (pre : List Event)
      (hpre : ∀ chosen, Event.getServer chosen ∉ pre),
      let s1 : Session :=
        { s with files := files, fragmentNumber := s.fragmentNumber + 1,
                 currentChunkSize := 0,
                 bucketServer := chooseServer reg filename s.totalBytes b }
      let r : Session × Option Exit × List Event :=
        match closeStream s1 with
        | none => (s1, some .panicked, pre ++ [.getServer (chooseServer reg filename s.totalBytes b)])
        | some (s2, closed) =>
          match s2.bucketServer with
          | none => (s2, some .panicked, pre ++ [.getServer (chooseServer reg filename s.totalBytes b)] ++ closed)
          | some srv =>
            if env.newClientFails srv.Address then
              ({ s2 with grpcConn := none }, some .returned,
                pre ++ [.getServer (chooseServer reg filename s.totalBytes b)] ++ closed ++ [.newClient srv.Address false])
            else if env.uploadChunksFails srv.Address then
              ({ s2 with grpcConn := some srv.Address, grpcStream := none }, some .returned,
                pre ++ [.getServer (chooseServer reg filename s.totalBytes b)] ++ closed ++
                  [.newClient srv.Address true, .uploadChunks srv.Address false])
            else
              ({ s2 with grpcConn := some srv.Address,
                         grpcStream := some { address := srv.Address, sent := [], finished := false } },
                none,
                pre ++ [.getServer (chooseServer reg filename s.totalBytes b)] ++ closed ++
                  [.newClient srv.Address true, .uploadChunks srv.Address true])
      (∀ chosen, Event.getServer chosen ∈ r.2.2 →
          chosen = chooseServer reg filename s.totalBytes b) ∧
        Event.getServer (chooseServer reg filename s.totalBytes b) ∈ r.2.2 ∧
        r.1.bucketServer = chooseServer reg filename s.totalBytes b := by
    intro files pre hpre
    intro s1 r
    rcases hcl : closeStream s1 with _ | ⟨s2, closed⟩
    · simp only [r, hcl]
      refine ⟨?_, by simp, trivial⟩
      intro chosen hc
      simp only [List.mem_append, List.mem_singleton, Event.getServer.injEq] at hc
      rcases hc with hc | hc
      · exact absurd hc (hpre chosen)
      · exact hc
    · obtain ⟨hbs, hno⟩ := closeStream_bucketServer s1 s2 closed hcl
      simp only [r, hcl]
      split
      · refine ⟨?_, by simp, by rw [hbs]⟩
        intro chosen hc
        simp only [List.mem_append, List.mem_singleton, Event.getServer.injEq] at hc
        rcases hc with (hc | hc) | hc
        · exact absurd hc (hpre chosen)
        · exact hc
        · exact absurd hc (hno chosen)
      · split
        · refine ⟨?_, by simp, by simp [hbs]⟩
          intro chosen hc
          simp only [List.mem_append, List.mem_singleton, Event.getServer.injEq] at hc
          rcases hc with ((hc | hc) | hc) | hc
          · exact absurd hc (hpre chosen)
          · exact hc
          · exact absurd hc (hno chosen)
          · cases hc
        · split
          · refine ⟨?_, by simp, by simp [hbs]⟩
            intro chosen hc
            simp only [List.mem_append, List.mem_singleton, Event.getServer.injEq,
              List.mem_cons, List.mem_nil_iff] at hc
            rcases hc with ((hc | hc) | hc) | hc
            · exact absurd hc (hpre chosen)
            · simpa using hc
            · exact absurd hc (hno chosen)
            · simp at hc
          · refine ⟨?_, by simp, by simp [hbs]⟩
            intro chosen hc
            simp only [List.mem_append, List.mem_singleton, Event.getServer.injEq,
              List.mem_cons, List.mem_nil_iff] at hc
            rcases hc with ((hc | hc) | hc) | hc
            · exact absurd hc (hpre chosen)
            · simpa using hc
            · exact absurd hc (hno chosen)
            · simp at hc
  rcases hb : s.bucketServer with _ | prev
  · have := key s.files [] (by simp)
    simp only [openFragment, hb]
    simp only [List.nil_append] at this ⊢
    exact ⟨this.1, fun _ => ⟨this.2.1, this.2.2⟩⟩
  · by_cases hadd : (s.files.AddFragment env filename prev.Address).2 = true
    · have := key (s.files.AddFragment env filename prev.Address).1
        [.addFragment filename prev.Address true] (by simp)
      simp only [openFragment, hb, hadd] at this ⊢
      exact ⟨this.1, fun _ => ⟨this.2.1, this.2.2⟩⟩
    · simp only [Bool.not_eq_true] at hadd
      simp only [openFragment, hb, hadd]
      refine ⟨by simp, ?_⟩
      intro h
      have := h prev rfl
      simp [hadd] at this

theorem uploadFrame_getServer (env : Env) (reg : registry.Registry) (filename : String)
    (chunkSize : Int) (b : Bytes) (s : Session) :
    (∀ chosen, Event.getServer chosen ∈ (uploadFrame env reg filename chunkSize b s).2.2 →
        chosen = chooseServer reg filename (s.totalBytes + b.length) b) ∧
      ((s.bucketServer = none ∨ s.currentChunkSize + b.length ≥ chunkSize) →
        (∀ srv, s.bucketServer = some srv →
          (s.files.AddFragment env filename srv.Address).2 = true) →
        Event.getServer (chooseServer reg filename (s.totalBytes + b.length) b) ∈
            (uploadFrame env reg filename chunkSize b s).2.2 ∧
          (uploadFrame env reg filename chunkSize b s).1.bucketServer =
            chooseServer reg filename (s.totalBytes + b.length) b) ∧
      (¬ (s.bucketServer = none ∨ s.currentChunkSize + b.length ≥ chunkSize) →
        (∀ chosen, Event.getServer chosen ∉ (uploadFrame env reg filename chunkSize b s).2.2) ∧
          (uploadFrame env reg filename chunkSize b s).1.bucketServer = s.bucketServer) := by
  have hopen := openFragment_getServer env reg filename b
    { s with totalBytes := s.totalBytes + b.length,
             currentChunkSize := s.currentChunkSize + b.length }
  by_cases hcond : s.bucketServer = none ∨ s.currentChunkSize + b.length ≥ chunkSize
  · simp only [uploadFrame, hcond, if_true]
    rcases hr : openFragment env reg filename b
      { s with totalBytes := s.totalBytes + b.length,
               currentChunkSize := s.currentChunkSize + b.length } with ⟨s2, exit, opened⟩
    rw [hr] at hopen
    simp only at hopen
    cases exit with
    | some exit =>
      simp only
      exact ⟨hopen.1, fun _ hadd => hopen.2 hadd, fun h => absurd trivial h⟩
    | none =>
      simp only
      obtain ⟨hbs, hno⟩ := sendChunk_bucketServer env filename b s2
      refine ⟨?_, fun _ hadd => ?_, fun h => absurd trivial h⟩
      · intro chosen hc
        rcases List.mem_append.mp hc with hc | hc
        · exact hopen.1 chosen hc
        · exact absurd hc (hno chosen)
      · obtain ⟨h1, h2⟩ := hopen.2 hadd
        exact ⟨List.mem_append_left _ h1, hbs.trans h2⟩
  · simp only [uploadFrame, hcond, if_false]
    obtain ⟨hbs, hno⟩ := sendChunk_bucketServer env filename b
      { s with totalBytes := s.totalBytes + b.length,
               currentChunkSize := s.currentChunkSize + b.length }
    refine ⟨fun chosen hc => absurd hc (hno chosen), fun h => absurd h (by simp), fun _ => ⟨hno, hbs⟩⟩

/-! # The claims -/

/-! ## C1: round trip -/

/-- C1: round trip. For a non-empty filename without record, at least one registered
node, a declared size `size ≥ 1` and non-empty frames whose lengths sum to `size`
(followed by whatever the client sends next), if no call of the upload returns an error,
then the upload returns and a download of the file in a reliable environment, on the
registry and the stores the upload leaves, relays frames whose concatenation is the
concatenation of the uploaded frames. -/
theorem upload_download_roundtrip (env : Env) (reg : registry.Registry)
    (files : fragment.Registry) (stores : Stores) (filename : String) (size : Int)
    (frames : List Bytes) (rest : List ReadResult)
    (hname : filename ≠ "") (hrecord : files.get filename = none)
    (hnodes : reg.servers ≠ []) (hsize : 1 ≤ size) (hframes : ∀ b ∈ frames, b ≠ [])
    (hsum : (((frames.map List.length).sum : Nat) : Int) = size)
    (hup : env.upgradeFails = false)
    (hok : ∀ e ∈ (upload env reg files stores filename (some size)
      (frames.map .message ++ rest)).trace, e.ok = true) :
    (upload env reg files stores filename (some size) (frames.map .message ++ rest)).outcome
        = .returned ∧
      (download Env.reliable
        (upload env reg files stores filename (some size) (frames.map .message ++ rest)).files
        (upload env reg files stores filename (some size) (frames.map .message ++ rest)).stores
        filename).outcome = .returned ∧
      (relayed (download Env.reliable
        (upload env reg files stores filename (some size) (frames.map .message ++ rest)).files
        (upload env reg files stores filename (some size) (frames.map .message ++ rest)).stores
        filename).trace).flatten = frames.flatten := by
  have hsize0 : size ≠ 0 := by omega
  have hu : upload env reg files stores filename (some size) (frames.map .message ++ rest) =
      uploadSession env reg files stores filename size (frames.map .message ++ rest) := by
    simp [upload, hname, hup, readUploadFileSize, hsize0]
  rw [hu] at hok ⊢
  obtain ⟨hout, fm, hget, hstatus, -, hfrag⟩ :=
    uploadSession_plan env reg files stores filename size frames rest hrecord hnodes
      hsize hframes hsum hok
  obtain ⟨d1, d2⟩ := download_reliable _ _ filename fm _ hname hget hstatus hfrag
  refine ⟨hout, d1, d2.trans ?_⟩
  simpa using planFragments_flatten reg filename (size.tdiv serverNumber) 0 0 none frames

set_option maxRecDepth 1000000 in
/-- The round trip of twelve bytes sent in four frames, with nodes `A` and `B`. -/
theorem upload_download_roundtrip_witness :
    (upload Env.reliable nodesAB fragment.NewRegistry emptyStores "f" (some 12)
        (fourFrames.map .message ++ [.message []])).outcome = .returned ∧
      (download Env.reliable
        (upload Env.reliable nodesAB fragment.NewRegistry emptyStores "f" (some 12)
          (fourFrames.map .message ++ [.message []])).files
        (upload Env.reliable nodesAB fragment.NewRegistry emptyStores "f" (some 12)
          (fourFrames.map .message ++ [.message []])).stores
        "f").outcome = .returned ∧
      (relayed (download Env.reliable
        (upload Env.reliable nodesAB fragment.NewRegistry emptyStores "f" (some 12)
          (fourFrames.map .message ++ [.message []])).files
        (upload Env.reliable nodesAB fragment.NewRegistry emptyStores "f" (some 12)
          (fourFrames.map .message ++ [.message []])).stores
        "f").trace).flatten = fourFrames.flatten :=
  upload_download_roundtrip Env.reliable nodesAB fragment.NewRegistry emptyStores "f" 12
    fourFrames [.message []] (by decide) rfl (by decide) (by decide) (by decide) (by decide)
    rfl (by decide)

/-! ## C2: status at finalization -/

set_option maxRecDepth 100000 in
/-- C2 (code does otherwise): with node `A` registered and a declared size of 4, a
client that sends one frame of 2 bytes and then a zero-length frame leaves the record of
`f` with status `Complete`, and a download then serves the 2 bytes as the file. -/
theorem partial_upload_is_marked_complete :
    (upload Env.reliable nodesA fragment.NewRegistry emptyStores "f" (some 4)
        [.message [1, 2], .message []]).files.get "f" =
      some { Status := UploadStatusComplete, Name := "f", Addresses := ["A"] } ∧
    relayed (download Env.reliable
        (upload Env.reliable nodesA fragment.NewRegistry emptyStores "f" (some 4)
          [.message [1, 2], .message []]).files
        (upload Env.reliable nodesA fragment.NewRegistry emptyStores "f" (some 4)
          [.message [1, 2], .message []]).stores "f").trace = [[1, 2], []] := by
  decide

/-! ## C3: upload without nodes -/

/-- C3 (code does otherwise): with no node registered, every upload session that gets
past the size announcement (non-empty filename, upgraded connection, size other than 0)
ends by a panic, whatever the client sends and whatever else fails, and leaves the
metadata registry as it was: the file is never marked `Failed`. -/
theorem upload_without_nodes_panics (env : Env) (files : fragment.Registry)
    (stores : Stores) (filename : String) (size : Int) (inbound : List ReadResult)
    (hname : filename ≠ "") (hup : env.upgradeFails = false) (hsize : size ≠ 0) :
    (upload env { servers := [] } files stores filename (some size) inbound).outcome
        = .panicked ∧
      (upload env { servers := [] } files stores filename (some size) inbound).files
        = files := by
  have key := uploadLoop_no_nodes env filename size (size.tdiv serverNumber)
    { totalBytes := 0, currentChunkSize := 0, grpcConn := none, bucketServer := none,
      grpcStream := none, fragmentNumber := -1, files := files, stores := stores }
    inbound ⟨rfl, rfl⟩
  simp only [upload, hname, hup, readUploadFileSize, hsize, if_false, uploadSession]
  generalize uploadLoop env { servers := [] } filename size (size.tdiv serverNumber) _ inbound
    = r at key ⊢
  obtain ⟨s1, exit, evs⟩ := r
  obtain ⟨⟨hb, hc⟩, hf, -⟩ := key
  simp only at hb hc hf
  simp [closeStream, finalize, hb, hc, hf]

set_option maxRecDepth 100000 in
/-- The upload of one byte as `f` when no node is registered. -/
theorem upload_without_nodes_panics_witness :
    (upload Env.reliable { servers := [] } fragment.NewRegistry emptyStores "f" (some 1)
        [.message [7]]).outcome = .panicked ∧
      (upload Env.reliable { servers := [] } fragment.NewRegistry emptyStores "f" (some 1)
        [.message [7]]).files = fragment.NewRegistry :=
  upload_without_nodes_panics Env.reliable fragment.NewRegistry emptyStores "f" 1
    [.message [7]] (by decide) rfl (by decide)

/-! ## C4: download gated on status -/

/-- C4: `download` is gated on the status. When the record of `filename` is absent or
its status is not `Complete`, the handler makes no call at all (it opens no fragment
read and relays nothing) and, for a non-empty filename, answers not-found; and whenever
it makes any call, the record exists and its status is `Complete`. -/
theorem download_gated_on_status (env : Env) (files : fragment.Registry) (stores : Stores)
    (filename : String) :
    ((files.get filename = none ∨
        ∃ fm, files.get filename = some fm ∧ fm.Status ≠ UploadStatusComplete) →
      (download env files stores filename).trace = [] ∧
        (filename ≠ "" → (download env files stores filename).outcome = .notFound)) ∧
    ((download env files stores filename).trace ≠ [] →
      ∃ fm, files.get filename = some fm ∧ fm.Status = UploadStatusComplete) := by
  by_cases hne : filename = ""
  · simp [download, hne]
  · cases hget : files.get filename with
    | none => simp [download, hne, hget]
    | some fm =>
      by_cases hs : fm.Status = UploadStatusComplete
      · simp [hs]
      · simp [download, hne, hget, hs]

/-- The download of `f` while its record is `Failed`. -/
theorem download_gated_on_status_witness :
    (failedF.get "f" = none ∨
        ∃ fm, failedF.get "f" = some fm ∧ fm.Status ≠ UploadStatusComplete) ∧
      (download Env.reliable failedF emptyStores "f").trace = [] ∧
      (download Env.reliable failedF emptyStores "f").outcome = .notFound :=
  have h : failedF.get "f" = none ∨
      ∃ fm, failedF.get "f" = some fm ∧ fm.Status ≠ UploadStatusComplete :=
    Or.inr ⟨_, rfl, by decide⟩
  ⟨h, ((download_gated_on_status Env.reliable failedF emptyStores "f").1 h).1,
    ((download_gated_on_status Env.reliable failedF emptyStores "f").1 h).2 (by decide)⟩

/-! ## C5: records that are `Complete` -/

/-- C5, as stated, fails: on the `Complete` record of `f`, `AddFragment` changes the
address list and `SetStatus` changes the status. -/
theorem complete_record_is_mutable :
    completeF.get "f" = some { Status := UploadStatusComplete, Name := "f", Addresses := ["A"] } ∧
      (completeF.AddFragment Env.reliable "f" "B").1.get "f" =
        some { Status := UploadStatusComplete, Name := "f", Addresses := ["A", "B"] } ∧
      (completeF.SetStatus Env.reliable "f" UploadStatusFailed).1.get "f" =
        some { Status := UploadStatusFailed, Name := "f", Addresses := ["A"] } ∧
      (completeF.AddFragment Env.reliable "f" "B").1.get "f" ≠ completeF.get "f" ∧
      (completeF.SetStatus Env.reliable "f" UploadStatusFailed).1.get "f" ≠ completeF.get "f" := by
  decide

/-- C5, amended: on a record whose status is `Complete`, `AddFragment` keeps status and
name and appends the address to the address list, and `SetStatus` keeps name and address
list and overwrites the status. -/
theorem complete_record_addFragment_setStatus (env : Env) (r : fragment.Registry)
    (filename address : String) (status : UploadStatus) (fm : FileMeta)
    (h : r.get filename = some fm) (_hc : fm.Status = UploadStatusComplete) :
    (r.AddFragment env filename address).1.get filename =
        some { fm with Addresses := fm.Addresses ++ [address] } ∧
      (r.SetStatus env filename status).1.get filename = some { fm with Status := status } := by
  simp only [Registry.get] at h
  constructor
  · simp [Registry.AddFragment, Registry.get, lookup_addEntry_self, h]
  · simp [Registry.SetStatus, Registry.get, h, lookup_modify_self]

/-- The two operations on the `Complete` record of `f` with one fragment on `A`. -/
theorem complete_record_addFragment_setStatus_witness :
    completeF.get "f" = some { Status := UploadStatusComplete, Name := "f", Addresses := ["A"] } ∧
      ((completeF.AddFragment Env.reliable "f" "B").1.get "f" =
          some { Status := UploadStatusComplete, Name := "f", Addresses := ["A"] ++ ["B"] } ∧
        (completeF.SetStatus Env.reliable "f" UploadStatusFailed).1.get "f" =
          some { Status := UploadStatusFailed, Name := "f", Addresses := ["A"] }) :=
  ⟨rfl, complete_record_addFragment_setStatus Env.reliable completeF "f" "B" UploadStatusFailed
    { Status := UploadStatusComplete, Name := "f", Addresses := ["A"] } rfl rfl⟩

/-! ## C6: the status of a new record -/

/-- C6: on a filename without record, `AddFragment` creates a record named `filename`
whose address list is `[address]`; its status is the zero value 0, which is not the
value 1 of `UploadStatusIncomplete`. -/
theorem addFragment_creates_record_with_status_zero (env : Env) (r : fragment.Registry)
    (filename address : String) (h : r.get filename = none) :
    (r.AddFragment env filename address).1.get filename =
        some { Status := 0, Name := filename, Addresses := [address] } ∧
      (0 : UploadStatus) ≠ UploadStatusIncomplete := by
  constructor
  · simp only [Registry.get] at h
    simp [Registry.AddFragment, Registry.get, lookup_addEntry_self, h]
  · decide

/-- The first `AddFragment` for `f` on the empty registry. -/
theorem addFragment_creates_record_with_status_zero_witness :
    fragment.NewRegistry.get "f" = none ∧
      ((fragment.NewRegistry.AddFragment Env.reliable "f" "A").1.get "f" =
          some { Status := 0, Name := "f", Addresses := ["A"] } ∧
        (0 : UploadStatus) ≠ UploadStatusIncomplete) :=
  ⟨rfl, addFragment_creates_record_with_status_zero Env.reliable fragment.NewRegistry "f" "A" rfl⟩

/-! ## C7: the declared size -/

/-- C7 (code does otherwise): a negative announced size is not refused. The session
starts, reads no frame, selects no node and writes no record, and then ends by a panic
in the deferred finalization instead of being rejected as invalid input. -/
theorem upload_negative_size_panics (env : Env) (reg : registry.Registry)
    (files : fragment.Registry) (stores : Stores) (filename : String) (size : Int)
    (inbound : List ReadResult)
    (hname : filename ≠ "") (hup : env.upgradeFails = false) (hsize : size < 0) :
    (upload env reg files stores filename (some size) inbound).outcome = .panicked ∧
      (upload env reg files stores filename (some size) inbound).trace = [] ∧
      (upload env reg files stores filename (some size) inbound).files = files := by
  have h0 : size ≠ 0 := by omega
  have hle : (0 : Int) ≥ size := by omega
  cases inbound with
  | nil =>
    simp [upload, hname, hup, readUploadFileSize, h0, uploadSession, uploadLoop, hle,
      closeStream, finalize]
  | cons r rest =>
    cases r <;>
      simp [upload, hname, hup, readUploadFileSize, h0, uploadSession, uploadLoop, hle,
        closeStream, finalize]

set_option maxRecDepth 100000 in
/-- The upload of `f` with the announced size -1. -/
theorem upload_negative_size_panics_witness :
    (upload Env.reliable nodesAB fragment.NewRegistry emptyStores "f" (some (-1))
        [.message [7]]).outcome = .panicked ∧
      (upload Env.reliable nodesAB fragment.NewRegistry emptyStores "f" (some (-1))
        [.message [7]]).trace = [] ∧
      (upload Env.reliable nodesAB fragment.NewRegistry emptyStores "f" (some (-1))
        [.message [7]]).files = fragment.NewRegistry :=
  upload_negative_size_panics Env.reliable nodesAB fragment.NewRegistry emptyStores "f" (-1)
    [.message [7]] (by decide) rfl (by decide)

/-! ## C8: the scenario of 12 bytes -/

set_option maxRecDepth 1000000 in
/-- C8, as stated, fails: when the 12 bytes arrive in one frame, as the client of the
repository sends a file of 12 bytes, the upload makes one fragment of 12 bytes and the
record has one address. -/
theorem upload_twelve_bytes_in_one_frame :
    (upload Env.reliable nodesAB fragment.NewRegistry emptyStores "f" (some 12)
        [.message [0, 1, 2, 3, 4, 5, 6, 7, 8, 9, 10, 11], .message []]).files.get "f" =
      some { Status := UploadStatusComplete, Name := "f", Addresses := ["B"] } ∧
    fragmentsOf
        (upload Env.reliable nodesAB fragment.NewRegistry emptyStores "f" (some 12)
          [.message [0, 1, 2, 3, 4, 5, 6, 7, 8, 9, 10, 11], .message []]).stores "f" 0 ["B"] =
      some [[0, 1, 2, 3, 4, 5, 6, 7, 8, 9, 10, 11]] := by
  decide

/-- C8, amended: with nodes `A` and `B` registered, a non-empty filename without record
and no failing call, the upload of 12 bytes with declared size 12 that arrive as twelve
frames of 1 byte, or as six frames of 2 bytes, leaves a `Complete` record with exactly 6
addresses; address `i` is the node chosen by the hash rule for the frame that opened
fragment `i`, and fragment `i`, stored on that node under index `i`, holds bytes `2i` and
`2i+1`. -/
theorem upload_twelve_bytes_in_small_frames (env : Env) (files : fragment.Registry)
    (stores : Stores) (filename : String) (rest : List ReadResult)
    (b0 b1 b2 b3 b4 b5 b6 b7 b8 b9 b10 b11 : UInt8)
    (hname : filename ≠ "") (hrecord : files.get filename = none)
    (hup : env.upgradeFails = false) :
    ((∀ e ∈ (upload env nodesAB files stores filename (some 12)
          ([[b0], [b1], [b2], [b3], [b4], [b5], [b6], [b7], [b8], [b9], [b10], [b11]].map
            .message ++ rest)).trace, e.ok = true) →
      ∃ fm,
        (upload env nodesAB files stores filename (some 12)
          ([[b0], [b1], [b2], [b3], [b4], [b5], [b6], [b7], [b8], [b9], [b10], [b11]].map
            .message ++ rest)).files.get filename = some fm ∧
        fm.Status = UploadStatusComplete ∧
        fm.Addresses =
          [selected nodesAB filename 1 [b0], selected nodesAB filename 3 [b2],
            selected nodesAB filename 5 [b4], selected nodesAB filename 7 [b6],
            selected nodesAB filename 9 [b8], selected nodesAB filename 11 [b10]] ∧
        fragmentsOf
            (upload env nodesAB files stores filename (some 12)
              ([[b0], [b1], [b2], [b3], [b4], [b5], [b6], [b7], [b8], [b9], [b10], [b11]].map
                .message ++ rest)).stores filename 0 fm.Addresses =
          some [[b0, b1], [b2, b3], [b4, b5], [b6, b7], [b8, b9], [b10, b11]]) ∧
    ((∀ e ∈ (upload env nodesAB files stores filename (some 12)
          ([[b0, b1], [b2, b3], [b4, b5], [b6, b7], [b8, b9], [b10, b11]].map
            .message ++ rest)).trace, e.ok = true) →
      ∃ fm,
        (upload env nodesAB files stores filename (some 12)
          ([[b0, b1], [b2, b3], [b4, b5], [b6, b7], [b8, b9], [b10, b11]].map
            .message ++ rest)).files.get filename = some fm ∧
        fm.Status = UploadStatusComplete ∧
        fm.Addresses =
          [selected nodesAB filename 2 [b0, b1], selected nodesAB filename 4 [b2, b3],
            selected nodesAB filename 6 [b4, b5], selected nodesAB filename 8 [b6, b7],
            selected nodesAB filename 10 [b8, b9], selected nodesAB filename 12 [b10, b11]] ∧
        fragmentsOf
            (upload env nodesAB files stores filename (some 12)
              ([[b0, b1], [b2, b3], [b4, b5], [b6, b7], [b8, b9], [b10, b11]].map
                .message ++ rest)).stores filename 0 fm.Addresses =
          some [[b0, b1], [b2, b3], [b4, b5], [b6, b7], [b8, b9], [b10, b11]]) := by
  have hu : ∀ inbound, upload env nodesAB files stores filename (some 12) inbound =
      uploadSession env nodesAB files stores filename 12 inbound := by
    intro inbound
    simp [upload, hname, hup, readUploadFileSize]
  have hnodes : nodesAB.servers ≠ [] := by decide
  have hchunk : (12 : Int).tdiv serverNumber = 2 := by decide
  constructor
  · intro hok
    rw [hu] at hok ⊢
    obtain ⟨-, fm, hget, hstatus, haddr, hfrag⟩ :=
      uploadSession_plan env nodesAB files stores filename 12
        [[b0], [b1], [b2], [b3], [b4], [b5], [b6], [b7], [b8], [b9], [b10], [b11]] rest
        hrecord hnodes (by decide) (by simp) (by simp) hok
    refine ⟨fm, hget, hstatus, ?_, ?_⟩
    · rw [haddr, hchunk]
      simp [planFragments]
    · rw [hfrag, hchunk]
      simp [planFragments]
  · intro hok
    rw [hu] at hok ⊢
    obtain ⟨-, fm, hget, hstatus, haddr, hfrag⟩ :=
      uploadSession_plan env nodesAB files stores filename 12
        [[b0, b1], [b2, b3], [b4, b5], [b6, b7], [b8, b9], [b10, b11]] rest
        hrecord hnodes (by decide) (by simp) (by simp) hok
    refine ⟨fm, hget, hstatus, ?_, ?_⟩
    · rw [haddr, hchunk]
      simp [planFragments]
    · rw [hfrag, hchunk]
      simp [planFragments]

set_option maxRecDepth 1000000 in
/-- The upload of the bytes 1 to 12 as twelve frames and as six frames. -/
theorem upload_twelve_bytes_in_small_frames_witness :
    (∃ fm,
        (upload Env.reliable nodesAB fragment.NewRegistry emptyStores "f" (some 12)
          ([[1], [2], [3], [4], [5], [6], [7], [8], [9], [10], [11], [12]].map
            .message ++ [.message []])).files.get "f" = some fm ∧
        fm.Status = UploadStatusComplete ∧
        fm.Addresses =
          [selected nodesAB "f" 1 [1], selected nodesAB "f" 3 [3],
            selected nodesAB "f" 5 [5], selected nodesAB "f" 7 [7],
            selected nodesAB "f" 9 [9], selected nodesAB "f" 11 [11]] ∧
        fragmentsOf
            (upload Env.reliable nodesAB fragment.NewRegistry emptyStores "f" (some 12)
              ([[1], [2], [3], [4], [5], [6], [7], [8], [9], [10], [11], [12]].map
                .message ++ [.message []])).stores "f" 0 fm.Addresses =
          some [[1, 2], [3, 4], [5, 6], [7, 8], [9, 10], [11, 12]]) ∧
    (∃ fm,
        (upload Env.reliable nodesAB fragment.NewRegistry emptyStores "f" (some 12)
          ([[1, 2], [3, 4], [5, 6], [7, 8], [9, 10], [11, 12]].map
            .message ++ [.message []])).files.get "f" = some fm ∧
        fm.Status = UploadStatusComplete ∧
        fm.Addresses =
          [selected nodesAB "f" 2 [1, 2], selected nodesAB "f" 4 [3, 4],
            selected nodesAB "f" 6 [5, 6], selected nodesAB "f" 8 [7, 8],
            selected nodesAB "f" 10 [9, 10], selected nodesAB "f" 12 [11, 12]] ∧
        fragmentsOf
            (upload Env.reliable nodesAB fragment.NewRegistry emptyStores "f" (some 12)
              ([[1, 2], [3, 4], [5, 6], [7, 8], [9, 10], [11, 12]].map
                .message ++ [.message []])).stores "f" 0 fm.Addresses =
          some [[1, 2], [3, 4], [5, 6], [7, 8], [9, 10], [11, 12]]) :=
  ⟨(upload_twelve_bytes_in_small_frames Env.reliable fragment.NewRegistry emptyStores "f"
      [.message []] 1 2 3 4 5 6 7 8 9 10 11 12 (by decide) rfl rfl).1 (by decide),
    (upload_twelve_bytes_in_small_frames Env.reliable fragment.NewRegistry emptyStores "f"
      [.message []] 1 2 3 4 5 6 7 8 9 10 11 12 (by decide) rfl rfl).2 (by decide)⟩

/-! ## C9: the sweep of a `Failed` record -/

/-- C9: one sweep over a registry in which `filename` has a `Failed` record with
addresses `a_0, ..., a_(n-1)` issues the delete requests for that file to `a_0`, `a_1`,
... in index order, request `i` being for fragment `uint32(i)`, which is `i` for a record
of at most `2^32` addresses; no request follows a failed one, every address gets its
request when none fails, and in all cases the record is absent after the sweep. The
requests reach the nodes: request `i` succeeds exactly when the environment fails neither
the connection to `a_i` nor the call and `a_i` holds the blob of fragment `i` before the
sweep, and after the sweep the blobs of the file are the ones before the sweep without
those of the requests that succeeded. -/
theorem cleanup_reclaims_failed_record (env : Env) (files : fragment.Registry)
    (stores : Stores) (filename : String) (fm : FileMeta)
    (h : files.get filename = some fm) (hfailed : fm.Status = UploadStatusFailed) :
    let ds := deleteRequests filename (cleanup env files stores).trace
    ds.map (fun d => (d.1, d.2.1)) =
        (fm.Addresses.enum.take ds.length).map (fun p => (p.2, uint32 p.1)) ∧
      (fm.Addresses.length ≤ 2 ^ 32 →
        ds.map (fun d => (d.1, d.2.1)) =
          (fm.Addresses.enum.take ds.length).map (fun p => (p.2, p.1))) ∧
      (∀ d ∈ ds.dropLast, d.2.2 = true) ∧
      ((∀ d ∈ ds, d.2.2 = true) → ds.length = fm.Addresses.length) ∧
      (cleanup env files stores).files.get filename = none ∧
      (fm.Addresses.length ≤ 2 ^ 32 → ∀ d ∈ ds,
        (d.2.2 = true ↔
          (env.newClientFails d.1 = false ∧
            env.deleteFragmentFails d.1 filename d.2.1 = false ∧
            (stores d.1).Get filename d.2.1 ≠ none))) ∧
      (∀ address k,
        ((cleanup env files stores).stores address).Get filename k =
          if (address, k, true) ∈ ds then none else (stores address).Get filename k) := by
  obtain ⟨hgone, stores1, hreq, hbefore, hafter⟩ := sweep_failed env filename fm files stores
    files.Files files.nodup (mem_of_lookup_eq_some h) hfailed
  have shape := deleteFragments_requests env filename stores1 0 fm.Addresses
  have effect := deleteFragments_effect env filename stores1 0 fm.Addresses
  simp only [cleanup, hreq]
  refine ⟨shape.1, ?_, shape.2.1, shape.2.2, hgone, ?_, ?_⟩
  · intro hlen
    rw [shape.1]
    apply List.map_congr_left
    intro p hp
    have hlt : p.1 < fm.Addresses.length :=
      List.fst_lt_of_mem_enum (List.mem_of_mem_take hp)
    rw [uint32_of_lt p.1 (by omega)]
  · intro hlen d hd
    rw [effect.2.1 (by omega) d hd, hbefore]
  · intro address k
    rw [hafter, effect.2.2.1, hbefore]

set_option maxRecDepth 100000 in
/-- The sweep of the `Failed` record of `f` with fragments on `A`, `B` and `C`, every
node holding every blob: when the delete to `B` fails, `A` loses its blob and `B` and `C`
keep theirs; when no delete fails, the three blobs are removed. On nodes that hold no
blob the first delete fails. The record is removed each time. -/
theorem cleanup_reclaims_failed_record_witness :
    (deleteRequests "f" (cleanup deleteToBFails failedF fullStores).trace
        = [("A", 0, true), ("B", 1, false)] ∧
      (deleteRequests "f" (cleanup deleteToBFails failedF fullStores).trace).map
          (fun d => (d.1, d.2.1)) =
        ((["A", "B", "C"] : List String).enum.take
          (deleteRequests "f" (cleanup deleteToBFails failedF fullStores).trace).length).map
          (fun p => (p.2, p.1)) ∧
      (cleanup deleteToBFails failedF fullStores).files.get "f" = none ∧
      ((cleanup deleteToBFails failedF fullStores).stores "A").Get "f" 0 = none ∧
      ((cleanup deleteToBFails failedF fullStores).stores "B").Get "f" 1 = some [] ∧
      ((cleanup deleteToBFails failedF fullStores).stores "C").Get "f" 2 = some []) ∧
    (deleteRequests "f" (cleanup Env.reliable failedF fullStores).trace
        = [("A", 0, true), ("B", 1, true), ("C", 2, true)] ∧
      (deleteRequests "f" (cleanup Env.reliable failedF fullStores).trace).length
        = (["A", "B", "C"] : List String).length ∧
      (cleanup Env.reliable failedF fullStores).files.get "f" = none ∧
      ((cleanup Env.reliable failedF fullStores).stores "A").Get "f" 0 = none ∧
      ((cleanup Env.reliable failedF fullStores).stores "B").Get "f" 1 = none ∧
      ((cleanup Env.reliable failedF fullStores).stores "C").Get "f" 2 = none) ∧
    (deleteRequests "f" (cleanup Env.reliable failedF emptyStores).trace
        = [("A", 0, false)] ∧
      (cleanup Env.reliable failedF emptyStores).files.get "f" = none) :=
  ⟨⟨by decide,
      (cleanup_reclaims_failed_record deleteToBFails failedF fullStores "f"
        { Status := UploadStatusFailed, Name := "f", Addresses := ["A", "B", "C"] }
        rfl rfl).2.1 (by decide),
      (cleanup_reclaims_failed_record deleteToBFails failedF fullStores "f"
        { Status := UploadStatusFailed, Name := "f", Addresses := ["A", "B", "C"] }
        rfl rfl).2.2.2.2.1,
      ((cleanup_reclaims_failed_record deleteToBFails failedF fullStores "f"
        { Status := UploadStatusFailed, Name := "f", Addresses := ["A", "B", "C"] }
        rfl rfl).2.2.2.2.2.2 "A" 0).trans (by decide),
      ((cleanup_reclaims_failed_record deleteToBFails failedF fullStores "f"
        { Status := UploadStatusFailed, Name := "f", Addresses := ["A", "B", "C"] }
        rfl rfl).2.2.2.2.2.2 "B" 1).trans (by decide),
      ((cleanup_reclaims_failed_record deleteToBFails failedF fullStores "f"
        { Status := UploadStatusFailed, Name := "f", Addresses := ["A", "B", "C"] }
        rfl rfl).2.2.2.2.2.2 "C" 2).trans (by decide)⟩,
    ⟨by decide,
      (cleanup_reclaims_failed_record Env.reliable failedF fullStores "f"
        { Status := UploadStatusFailed, Name := "f", Addresses := ["A", "B", "C"] }
        rfl rfl).2.2.2.1 (by decide),
      (cleanup_reclaims_failed_record Env.reliable failedF fullStores "f"
        { Status := UploadStatusFailed, Name := "f", Addresses := ["A", "B", "C"] }
        rfl rfl).2.2.2.2.1,
      by decide, by decide, by decide⟩,
    ⟨by decide,
      (cleanup_reclaims_failed_record Env.reliable failedF emptyStores "f"
        { Status := UploadStatusFailed, Name := "f", Addresses := ["A", "B", "C"] }
        rfl rfl).2.2.2.2.1⟩⟩

/-! ## C10: the sweep of other records -/

/-- C10: one sweep leaves every record whose status is not `Failed` in the registry,
with the same status and the same address list, and issues no delete request for any of
its fragments. -/
theorem cleanup_keeps_other_records (env : Env) (files : fragment.Registry)
    (stores : Stores) (filename : String) (fm : FileMeta)
    (h : files.get filename = some fm) (hstatus : fm.Status ≠ UploadStatusFailed) :
    (cleanup env files stores).files.get filename = some fm ∧
      deleteRequests filename (cleanup env files stores).trace = [] := by
  have hnot : ∀ v, (filename, v) ∈ files.Files → v.Status ≠ UploadStatusFailed := by
    intro v hv
    have := lookup_eq_some_of_mem files.nodup hv
    simp only [Registry.get] at h
    rw [h] at this
    cases this
    exact hstatus
  obtain ⟨u1, u2⟩ := sweep_untouched env filename files stores files.Files hnot
  simp only [cleanup]
  exact ⟨u1.trans h, u2⟩

set_option maxRecDepth 100000 in
/-- The sweep of a registry with the `Complete` record of `f` and a `Failed` record. -/
theorem cleanup_keeps_other_records_witness :
    (cleanup Env.reliable completeFfailedG fullStores).files.Files =
        [("f", { Status := UploadStatusComplete, Name := "f", Addresses := ["A"] })] ∧
      (cleanup Env.reliable completeFfailedG fullStores).files.get "f" =
        some { Status := UploadStatusComplete, Name := "f", Addresses := ["A"] } ∧
      deleteRequests "f" (cleanup Env.reliable completeFfailedG fullStores).trace = [] :=
  ⟨by decide,
    cleanup_keeps_other_records Env.reliable completeFfailedG fullStores "f"
      { Status := UploadStatusComplete, Name := "f", Addresses := ["A"] } rfl (by decide)⟩

/-! ## C11: registration of a node -/

/-- C11: a registration fails exactly when the address is empty, with the error `no
address`, or is in the node list already, with the error `server is already registered`;
a registration that fails leaves the registry, and so the node list and the node count,
as it was; one that succeeds appends the address at the end of the node list, and every
node registered before keeps its position. -/
theorem register_fails_iff_empty_or_registered (reg : registry.Registry)
    (address : String) :
    ((∃ err, reg.Register { Address := address } = .error err) ↔
        (address = "" ∨ address ∈ nodeList reg)) ∧
      ((RegisterBucket reg address).2 ≠ none ↔ (address = "" ∨ address ∈ nodeList reg)) ∧
      (address = "" → reg.Register { Address := address } = .error .noAddress) ∧
      (address ≠ "" → address ∈ nodeList reg →
        reg.Register { Address := address } = .error .alreadyRegistered) ∧
      ((RegisterBucket reg address).2 ≠ none →
        (RegisterBucket reg address).1 = reg ∧
          nodeList (RegisterBucket reg address).1 = nodeList reg ∧
          (nodeList (RegisterBucket reg address).1).length = (nodeList reg).length) ∧
      ((RegisterBucket reg address).2 = none →
        reg.Register { Address := address } = .ok (RegisterBucket reg address).1 ∧
          (RegisterBucket reg address).1.servers = reg.servers ++ [{ Address := address }] ∧
          nodeList (RegisterBucket reg address).1 = nodeList reg ++ [address] ∧
          (nodeList (RegisterBucket reg address).1).length = (nodeList reg).length + 1 ∧
          ∀ i, i < reg.servers.length →
            (RegisterBucket reg address).1.servers[i]? = reg.servers[i]?) := by
  have hreg : reg.Register { Address := address } =
      if address = "" then .error .noAddress
      else if address ∈ nodeList reg then .error .alreadyRegistered
      else .ok { servers := reg.servers ++ [{ Address := address }] } := by
    simp only [registry.Registry.Register]
    by_cases h1 : address = ""
    · simp [h1]
    · by_cases h2 : address ∈ nodeList reg
      · simp [h1, h2, (mem_nodeList reg address).mpr h2]
      · have h3 : ¬ reg.servers.any (fun server => decide (server.Address = address)) = true :=
          fun h => h2 ((mem_nodeList reg address).mp h)
        simp only [Bool.not_eq_true] at h3
        simp [h1, h2, h3]
  rw [registerBucket_eq, hreg]
  by_cases h1 : address = ""
  · simp [h1]
  · by_cases h2 : address ∈ nodeList reg
    · simp [h1, h2]
    · simp only [h1, h2, if_false, false_or, ne_eq, not_true_eq_false, false_implies,
        true_and, and_true, iff_false, not_false_eq_true, forall_true_left]
      exact ⟨by simp, by simp [nodeList], by simp [nodeList],
        fun i hi => List.getElem?_append_left hi⟩

set_option maxRecDepth 100000 in
/-- Registrations at the registry of `A` and `B`: the empty address and `A` are refused
and leave the two nodes, `C` becomes the third node; `A` then `B` registered at the empty
registry give the registry of `A` and `B`. -/
theorem register_fails_iff_empty_or_registered_witness :
    (RegisterBucket nodesAB "" = (nodesAB, some .noAddress) ∧
      RegisterBucket nodesAB "A" = (nodesAB, some .alreadyRegistered) ∧
      RegisterBucket nodesAB "C" =
        ({ servers := [{ Address := "A" }, { Address := "B" }, { Address := "C" }] }, none) ∧
      (RegisterBucket (RegisterBucket registry.NewRegistry "A").1 "B").1 = nodesAB) ∧
    ((RegisterBucket nodesAB "A").1 = nodesAB ∧
      nodeList (RegisterBucket nodesAB "A").1 = nodeList nodesAB ∧
      (nodeList (RegisterBucket nodesAB "A").1).length = (nodeList nodesAB).length) ∧
    nodeList (RegisterBucket nodesAB "C").1 = nodeList nodesAB ++ ["C"] :=
  ⟨by decide,
    (register_fails_iff_empty_or_registered nodesAB "A").2.2.2.2.1 (by decide),
    ((register_fails_iff_empty_or_registered nodesAB "C").2.2.2.2.2 (by decide)).2.2.1⟩

/-! ## C12: the selection of a node -/

/-- C12: with `n ≥ 1` nodes registered, the node chosen with a filename, a cumulative byte
count and a payload is the one at position `H mod n` of the registration order, `H` the
64-bit FNV-1 hash of the filename bytes, then the count on 8 bytes in little-endian
order, then the payload, so the choice is a function of these and of the node sequence;
with no node registered the choice is nil. In a session the node of a fragment is chosen
with the count that includes the frame that opens the fragment and with the payload of
that frame. -/
theorem chooseServer_selects_by_hash (reg : registry.Registry) (filename : String)
    (totalBytes : Int) (payload : Bytes) (hlo : 0 ≤ totalBytes) (hhi : totalBytes < 2 ^ 64) :
    (∀ hn : 1 ≤ reg.servers.length,
        chooseServer reg filename totalBytes payload =
          some (reg.servers.get
            ⟨fnv1 (selectionKey filename totalBytes.toNat payload) % reg.servers.length,
              Nat.mod_lt _ hn⟩) ∧
        selected reg filename totalBytes payload =
          (reg.servers.get
            ⟨fnv1 (selectionKey filename totalBytes.toNat payload) % reg.servers.length,
              Nat.mod_lt _ hn⟩).Address) ∧
      (reg.servers = [] → chooseServer reg filename totalBytes payload = none) ∧
      ((littleEndian 8 totalBytes.toNat).length = 8 ∧
        (leValue (littleEndian 8 totalBytes.toNat) : Int) = totalBytes) ∧
      (∀ (env : Env) (chunkSize : Int) (s : Session),
        s.totalBytes + payload.length = totalBytes →
        (∀ chosen,
          Event.getServer chosen ∈ (uploadFrame env reg filename chunkSize payload s).2.2 →
            chosen = chooseServer reg filename totalBytes payload) ∧
        ((s.bucketServer = none ∨ s.currentChunkSize + payload.length ≥ chunkSize) →
          (∀ srv, s.bucketServer = some srv →
            (s.files.AddFragment env filename srv.Address).2 = true) →
          Event.getServer (chooseServer reg filename totalBytes payload) ∈
              (uploadFrame env reg filename chunkSize payload s).2.2 ∧
            (uploadFrame env reg filename chunkSize payload s).1.bucketServer =
              chooseServer reg filename totalBytes payload)) := by
  refine ⟨fun hn => ?_, chooseServer_no_nodes reg filename totalBytes payload, ⟨?_, ?_⟩, ?_⟩
  · have h := chooseServer_eq reg filename totalBytes payload hlo hhi hn
    exact ⟨h, selected_of_chooseServer h⟩
  · exact littleEndian_length 8 _
  · rw [leValue_littleEndian]
    have hnat : totalBytes.toNat < 2 ^ 64 := by omega
    have h256 : (256 : Nat) ^ 8 = 2 ^ 64 := by norm_num
    rw [h256, Nat.mod_eq_of_lt hnat]
    exact Int.toNat_of_nonneg hlo
  · intro env chunkSize s hs
    have h := uploadFrame_getServer env reg filename chunkSize payload s
    rw [hs] at h
    exact ⟨h.1, h.2.1⟩

set_option maxRecDepth 100000 in
/-- The choice for the file `f` and a first frame of the single byte 1: with `A` and `B`
registered the hash is odd and the node is `B`, with `A` alone it is `A`, and with no
node it is nil. -/
theorem chooseServer_selects_by_hash_witness :
    fnv1 (selectionKey "f" 1 [1]) = 7570433184249618075 ∧
      chooseServer nodesAB "f" 1 [1] = some { Address := "B" } ∧
      chooseServer nodesA "f" 1 [1] = some { Address := "A" } ∧
      chooseServer registry.NewRegistry "f" 1 [1] = none :=
  ⟨by decide,
    ((chooseServer_selects_by_hash nodesAB "f" 1 [1] (by decide) (by decide)).1
      (by decide)).1.trans (by decide),
    ((chooseServer_selects_by_hash nodesA "f" 1 [1] (by decide) (by decide)).1
      (by decide)).1.trans (by decide),
    (chooseServer_selects_by_hash registry.NewRegistry "f" 1 [1] (by decide)
      (by decide)).2.1 rfl⟩

end K8test
